import Mathlib

/-!
Verification of the multi-agent grid-cleanup engine
(`src/grid/grid.py`, `src/agent/astar_controller.py`,
`src/agent/separate_agents.py`, `src/sim/app.py`).

The Python code is shallowly embedded: grids are lists of rows of cells,
the `queue.PriorityQueue` used by the A* controller is modelled as a list
from which the lexicographically least `(priority, node)` pair is removed
(all entries placed in the queue are pairwise distinct, so this is exactly
the heap's behaviour), and the unbounded `while` loops are modelled with a
fuel parameter; termination theorems show a fuel of twice the grid size
always suffices.
-/

namespace TrashSim

/-- `Cell` from `src/grid/grid.py` (values 0,1,2,3,6,4,5 in the source). -/
inductive Cell where
  | EMPTY
  | WETTRASH
  | DRYTRASH
  | DUSTY
  | SOAKED
  | BIN
  | WALL
deriving DecidableEq, Repr

/-- The numeric value of each `Cell` member in the source. The code only
compares these values for equality, so the embedding compares `Cell`s
directly. -/
def Cell.value : Cell → Nat
  | .EMPTY => 0
  | .WETTRASH => 1
  | .DRYTRASH => 2
  | .DUSTY => 3
  | .SOAKED => 6
  | .BIN => 4
  | .WALL => 5

/-- `Action` from `src/agent/astar_controller.py`, in enum order
(`MOVE_UP`, `MOVE_DOWN`, `MOVE_LEFT`, `MOVE_RIGHT`), which is also the
neighbour-expansion order `for action in Action`. -/
inductive Action where
  | MOVE_UP
  | MOVE_DOWN
  | MOVE_LEFT
  | MOVE_RIGHT
deriving DecidableEq, Repr

def allActions : List Action :=
  [Action.MOVE_UP, Action.MOVE_DOWN, Action.MOVE_LEFT, Action.MOVE_RIGHT]

/-- Grid coordinates.  The source stores Python ints and computes `y - 1`
etc., so coordinates are embedded as integers. -/
abbrev PointI := Int × Int

/-- The grid (`np.ndarray` of cell values, indexed `grid[x, y]` with `x`
the first axis). -/
abbrev Grid := List (List Cell)

/-- Number of rows: `len(self.grid)`. -/
def numRows (g : Grid) : Nat := g.length

/-- Number of columns: `len(self.grid[0])` (the first row's length;
numpy arrays are rectangular). -/
def numCols (g : Grid) : Nat := (g.headD []).length

/-- `self.grid[x, y]`; `none` when the index is outside the stored data. -/
def cellAt (g : Grid) (p : PointI) : Option Cell :=
  if 0 ≤ p.1 ∧ 0 ≤ p.2 then
    match g[p.1.toNat]? with
    | some row => row[p.2.toNat]?
    | none => none
  else none

/-- Write a cell value at a position (`self.grid[x, y] = v`). -/
def setCell (g : Grid) (p : PointI) (v : Cell) : Grid :=
  if 0 ≤ p.1 ∧ 0 ≤ p.2 then
    g.modify (fun row => row.set p.2.toNat v) p.1.toNat
  else g

/-- The grid is rectangular (always true of the numpy array). -/
def Rect (g : Grid) : Prop := ∀ row ∈ g, row.length = numCols g

/-- `cell.value in self.grid` (the numpy containment test). -/
def containsCell (g : Grid) (c : Cell) : Bool :=
  g.any (fun row => row.any (· = c))

/-- Manhattan distance (`abs(a[0]-b[0]) + abs(a[1]-b[1])`), the A*
heuristic in `AStarController.a_star`. -/
def manhattanI (a b : PointI) : Nat :=
  (a.1 - b.1).natAbs + (a.2 - b.2).natAbs

/-- `AStarController.is_valid_move`:
`0 <= x < len(self.grid) and 0 <= y < len(self.grid[0]) and self.grid[x, y] != Cell.WALL.value`. -/
def isValidMove (g : Grid) (p : PointI) : Bool :=
  decide (0 ≤ p.1) && decide (p.1 < (numRows g : Int)) &&
  decide (0 ≤ p.2) && decide (p.2 < (numCols g : Int)) &&
  decide (cellAt g p ≠ some Cell.WALL)

/-- In-bounds test (the first four conjuncts of `is_valid_move`). -/
def inBoundsI (g : Grid) (p : PointI) : Bool :=
  decide (0 ≤ p.1) && decide (p.1 < (numRows g : Int)) &&
  decide (0 ≤ p.2) && decide (p.2 < (numCols g : Int))

/-- `AStarController.apply_action`: step one cell in the given direction,
staying put when the result is not a valid move. -/
def applyAction (g : Grid) (node : PointI) (a : Action) : PointI :=
  let newPosition : PointI :=
    match a with
    | .MOVE_UP => (node.1, node.2 - 1)
    | .MOVE_DOWN => (node.1, node.2 + 1)
    | .MOVE_LEFT => (node.1 - 1, node.2)
    | .MOVE_RIGHT => (node.1 + 1, node.2)
  if isValidMove g newPosition then newPosition else node

/-! ### The priority queue

`queue.PriorityQueue` pops the least tuple.  Every tuple the two searches
put on the queue has a distinct node component (nodes are enqueued at most
once — see the termination lemmas), so the pop is the unique
lexicographically least `(priority, node)` element, which `popMin`
computes (preferring the earlier element on ties, which never occur). -/

/-- A queue entry `(f_score, node)`. -/
abbrev Entry := Nat × PointI

/-- Lexicographic order on `(priority, (x, y))`, as Python compares the
tuples `(f, (x, y))`. -/
def entryLe (a b : Entry) : Bool :=
  decide (a.1 < b.1) ||
  (decide (a.1 = b.1) &&
    (decide (a.2.1 < b.2.1) ||
     (decide (a.2.1 = b.2.1) && decide (a.2.2 ≤ b.2.2))))

/-- Remove the least entry (leftmost on ties). -/
def popMin : List Entry → Option (Entry × List Entry)
  | [] => none
  | e :: es =>
    match popMin es with
    | none => some (e, [])
    | some (m, rest) =>
      if entryLe e m then some (e, es) else some (m, e :: rest)

/-! ### `AStarController.a_star`

The search keeps `g_score` (a dict, also serving as the visited set: a
node is enqueued only if `new_node not in g_score`) and `came_from`, a
dict mapping each enqueued node to the `Action` that generated it
(`came_from[new_node] = action`, line 58 of the source). -/

/-- Dictionary lookup on an association list (the Python dicts keyed by
nodes; keys are only ever inserted once, so earliest-match lookup is
exact). -/
def lookupD {β : Type} : List (PointI × β) → PointI → Option β
  | [], _ => none
  | (k, v) :: t, p => if p = k then some v else lookupD t p

/-- Association list for `g_score` (node ↦ cost). -/
abbrev GScore := List (PointI × Nat)

/-- Association list for `came_from` in `a_star` (node ↦ action). -/
abbrev CameFromA := List (PointI × Action)

/-- `g_score[current_node]` (the entry is always present when the node was
taken from the queue; `0` stands in for the impossible missing case). -/
def gScoreOf (gs : GScore) (p : PointI) : Nat :=
  (lookupD gs p).getD 0

/-- One neighbour expansion of `a_star`'s inner `for action in Action`
loop: `new_node = apply_action(...)`; if it is valid and unvisited, record
its g-score, enqueue it with `f = g + heuristic(new_node, goal)` and set
`came_from[new_node] = action`. -/
def astarExpandStep (g : Grid) (goal cur : PointI)
    (st : List Entry × GScore × CameFromA) (a : Action) :
    List Entry × GScore × CameFromA :=
  let (opn, gs, cf) := st
  let newNode := applyAction g cur a
  if isValidMove g newNode && (lookupD gs newNode).isNone then
    let gNew := gScoreOf gs cur + 1
    ((gNew + manhattanI newNode goal, newNode) :: opn,
     (newNode, gNew) :: gs, (newNode, a) :: cf)
  else st

def astarExpand (g : Grid) (goal cur : PointI)
    (st : List Entry × GScore × CameFromA) :
    List Entry × GScore × CameFromA :=
  allActions.foldl (astarExpandStep g goal cur) st

/-- Path reconstruction, as the source actually behaves:
```
while current_node in came_from:
    path.append(came_from[current_node])
    current_node = came_from[current_node]
return path[::-1]
```
`came_from` maps nodes to `Action`s, so after one iteration
`current_node` is an `Action`, which is never a key of the dict; the loop
therefore stops after at most one step and the "path" has at most one
element (reversing a singleton is the identity). -/
def reconstructPath (cf : CameFromA) (node : PointI) : List Action :=
  match lookupD cf node with
  | some a => [a]
  | none => []

/-- The `while not open_set.empty()` loop of `a_star`, with fuel.
When the queue drains the (still empty) `path` list is returned. -/
def astarLoop (g : Grid) (goal : PointI) :
    Nat → List Entry → GScore → CameFromA → Option (List Action)
  | 0, _, _, _ => none
  | fuel + 1, opn, gs, cf =>
    match popMin opn with
    | none => some []
    | some ((_, node), rest) =>
      if node = goal then some (reconstructPath cf node)
      else
        let t := astarExpand g goal node (rest, gs, cf)
        astarLoop g goal fuel t.1 t.2.1 t.2.2

/-- `AStarController.a_star(start, goal)`: the queue starts as
`[(0, start)]` and `g_score = {start: 0}`. -/
def aStar (g : Grid) (start goal : PointI) (fuel : Nat) : Option (List Action) :=
  astarLoop g goal fuel [(0, start)] [(start, 0)] []

/-- Fuel that always suffices for `a_star` (proved below). -/
def astarFuel (g : Grid) : Nat := 2 * (numRows g * numCols g)

/-! ### `AStarController.find_closest_goal`

Same queue discipline, but the visited set is `came_from` (node ↦
predecessor node), the goal test `self.grid[x, y] == goal_type.value`
is applied to each popped node, the tentative cost is
`g_score = current_cost + 1` (from the popped priority), the heuristic
is the distance back to `start`, and when the queue drains the function
returns `start` itself. -/

abbrev CameFromN := List (PointI × PointI)

def fcgExpandStep (g : Grid) (start cur : PointI) (cost : Nat)
    (st : List Entry × CameFromN) (a : Action) : List Entry × CameFromN :=
  let (opn, cf) := st
  let newNode := applyAction g cur a
  if isValidMove g newNode && (lookupD cf newNode).isNone then
    ((cost + 1 + manhattanI newNode start, newNode) :: opn,
     (newNode, cur) :: cf)
  else st

def fcgExpand (g : Grid) (start cur : PointI) (cost : Nat)
    (st : List Entry × CameFromN) : List Entry × CameFromN :=
  allActions.foldl (fcgExpandStep g start cur cost) st

def fcgLoop (g : Grid) (goalType : Cell) (start : PointI) :
    Nat → List Entry → CameFromN → Option PointI
  | 0, _, _ => none
  | fuel + 1, opn, cf =>
    match popMin opn with
    | none => some start
    | some ((cost, node), rest) =>
      if cellAt g node = some goalType then some node
      else
        let t := fcgExpand g start node cost (rest, cf)
        fcgLoop g goalType start fuel t.1 t.2

/-- `AStarController.find_closest_goal(start, goal_type)`. -/
def findClosestGoal (g : Grid) (start : PointI) (goalType : Cell)
    (fuel : Nat) : Option PointI :=
  fcgLoop g goalType start fuel [(0, start)] []

/-- Fuel that always suffices for `find_closest_goal` (proved below). -/
def fcgFuel (g : Grid) : Nat := 2 * (numRows g * numCols g) + 2

/-! ### `AStarController` state and `tick`

`agent_positions` holds the three agents' positions;
`garbage_pickup_count`, `garbage_to_bin` and `garbage_actions_bin` are
the controller's garbage bookkeeping. -/

structure AStarState where
  grid : Grid
  gpos : PointI
  vpos : PointI
  mpos : PointI
  pickupCount : Nat
  garbageToBin : Bool
  garbageActionsBin : List Action
deriving DecidableEq, Repr

/-- The position loop of `tick_agent`: apply every action in the list
(each of the four enum members is a movement action). -/
def tickAgentPos (g : Grid) (pos : PointI) (actions : List Action) : PointI :=
  actions.foldl (applyAction g) pos

/-- `tick_agent(VACUUM, ...)`: move, then clear the final cell if `DUSTY`. -/
def tickAgentVacuum (g : Grid) (pos : PointI) (actions : List Action) :
    Grid × PointI :=
  let fp := tickAgentPos g pos actions
  if cellAt g fp = some Cell.DUSTY then (setCell g fp Cell.EMPTY, fp)
  else (g, fp)

/-- `tick_agent(MOP, ...)`: move, then clear the final cell if `SOAKED`. -/
def tickAgentMop (g : Grid) (pos : PointI) (actions : List Action) :
    Grid × PointI :=
  let fp := tickAgentPos g pos actions
  if cellAt g fp = some Cell.SOAKED then (setCell g fp Cell.EMPTY, fp)
  else (g, fp)

/-- `tick_agent(GARBAGE, ...)`: move; if the final cell is `DRYTRASH`,
count a pickup and leave `DUSTY`; then (reading the updated grid, as the
source's second `if` does) if it is `WETTRASH`, count a pickup and leave
`SOAKED`. -/
def tickAgentGarbage (g : Grid) (pos : PointI) (count : Nat)
    (actions : List Action) : Grid × PointI × Nat :=
  let fp := tickAgentPos g pos actions
  let st1 : Grid × Nat :=
    if cellAt g fp = some Cell.DRYTRASH then (setCell g fp Cell.DUSTY, count + 1)
    else (g, count)
  let st2 : Grid × Nat :=
    if cellAt st1.1 fp = some Cell.WETTRASH then (setCell st1.1 fp Cell.SOAKED, st1.2 + 1)
    else st1
  (st2.1, fp, st2.2)

/-- The garbage agent's `tick_agent` call folded into the state. -/
def garbagePhase (s : AStarState) (actions : List Action) : AStarState :=
  let r := tickAgentGarbage s.grid s.gpos s.pickupCount actions
  { s with grid := r.1, gpos := r.2.1, pickupCount := r.2.2 }

/-- The trailing `tick_agent(VACUUM, ...)`/`tick_agent(MOP, ...)` calls
of `AStarController.tick` (the mop sees the grid as updated by the
vacuum). -/
def vmPhase (s : AStarState) (vacuumActions mopActions : List Action) :
    AStarState :=
  let rv := tickAgentVacuum s.grid s.vpos vacuumActions
  let rm := tickAgentMop rv.1 s.mpos mopActions
  { s with grid := rm.1, vpos := rv.2, mpos := rm.2 }

/-- `AStarController.tick`.  All goals and plans are computed up front
from the pre-tick grid (source lines 87–103); the searches are fueled, so
the result is an `Option` (the termination theorems show the fuel always
suffices).  In the bin branch, a successful position update ends the tick
early (`return`), skipping the vacuum and mop; the stored
`garbage_actions_bin` list is only (re)filled when `garbage_to_bin` was
false, and its head is popped before the validity test. -/
def tickAStar (s : AStarState) : Option AStarState :=
  let fuelA := astarFuel s.grid
  let fuelF := fcgFuel s.grid
  (findClosestGoal s.grid s.vpos Cell.DUSTY fuelF).bind fun vacuumGoal =>
  (findClosestGoal s.grid s.mpos Cell.SOAKED fuelF).bind fun mopGoal =>
  (findClosestGoal s.grid s.gpos Cell.DRYTRASH fuelF).bind fun dryGoal =>
  (findClosestGoal s.grid s.gpos Cell.WETTRASH fuelF).bind fun wetGoal =>
  (aStar s.grid s.gpos dryGoal fuelA).bind fun actionsDry =>
  (aStar s.grid s.gpos wetGoal fuelA).bind fun actionsWet =>
  (aStar s.grid s.vpos vacuumGoal fuelA).bind fun vacuumActions =>
  (aStar s.grid s.mpos mopGoal fuelA).bind fun mopActs =>
  if 5 ≤ s.pickupCount then
    (findClosestGoal s.grid s.gpos Cell.BIN fuelF).bind fun binGoal =>
    (aStar s.grid s.gpos binGoal fuelA).bind fun actionsBin =>
    let stored := if s.garbageToBin then s.garbageActionsBin else actionsBin
    match stored with
    | a :: rest =>
      let newPos := applyAction s.grid s.gpos a
      if isValidMove s.grid newPos then
        let reached := newPos = binGoal
        some { s with gpos := newPos,
                      garbageActionsBin := rest,
                      garbageToBin := if reached then false else true,
                      pickupCount := if reached then 0 else s.pickupCount }
      else
        some (vmPhase { s with garbageActionsBin := rest, garbageToBin := true }
          vacuumActions mopActs)
    | [] =>
      if s.gpos = binGoal then
        some (vmPhase { s with garbageActionsBin := [], garbageToBin := false,
                               pickupCount := 0 } vacuumActions mopActs)
      else
        some (vmPhase { s with garbageActionsBin := [], garbageToBin := true }
          vacuumActions mopActs)
  else
    let s1 :=
      if actionsDry ≠ [] ∧ actionsWet = [] then garbagePhase s actionsDry
      else if actionsWet ≠ [] ∧ actionsDry = [] then garbagePhase s actionsWet
      else if actionsDry ≠ [] ∧ actionsWet ≠ [] then
        (if actionsDry.length ≤ actionsWet.length then garbagePhase s actionsDry
         else garbagePhase s actionsWet)
      else s
    some (vmPhase s1 vacuumActions mopActs)

/-- The driver's overlap check (`src/sim/app.py` lines 218–220):
`len(set(agents.values())) != len(agents)`. -/
def agentsOverlap (s : AStarState) : Bool :=
  s.gpos = s.vpos || s.gpos = s.mpos || s.vpos = s.mpos

/-! ### The ring search of `separate_agents.py`

`iter_manhattan_radius(x, y, grid, width)` yields the in-bounds cells at
Manhattan distance `width` of `(x, y)` in four quadrant arcs;
`iter_closest` starts at `(x, y)` and chains the rings of increasing
width; `Agent.find_nearest_cell` returns the first enumerated cell whose
value is among the requested ones.  Coordinates here are natural numbers
(numpy indices); each Python `max(0, a - b)` lower bound is exactly
truncated natural subtraction, and each yielded coordinate such as
`x - width + i` is written `x + i - width`, which for the indices the
range produces (where Python's value is nonnegative) is the same
number. -/

abbrev PointN := Nat × Nat

/-- Python `range(a, b)`. -/
def pyRange (a b : Nat) : List Nat := List.range' a (b - a)

/-- First loop: `for i in range(max(0, width - x), min(width, y + 1)):
yield x - width + i, y - i`. -/
def ringPart1 (x y w : Nat) : List PointN :=
  (pyRange (w - x) (min w (y + 1))).map fun i => (x + i - w, y - i)

/-- Second loop: `for i in range(max(0, width - y), min(width,
grid.shape[0] - x)): yield x + i, y - width + i`. -/
def ringPart2 (x y w R : Nat) : List PointN :=
  (pyRange (w - y) (min w (R - x))).map fun i => (x + i, y + i - w)

/-- Third loop: `for i in range(max(0, x + width - grid.shape[0] + 1),
min(width, grid.shape[1] - y)): yield x + width - i, y + i`. -/
def ringPart3 (x y w R C : Nat) : List PointN :=
  (pyRange (x + w + 1 - R) (min w (C - y))).map fun i => (x + w - i, y + i)

/-- Fourth loop: `for i in range(max(0, y + width - grid.shape[1] + 1),
min(width, x + 1)): yield x - i, y + width - i`. -/
def ringPart4 (x y w C : Nat) : List PointN :=
  (pyRange (y + w + 1 - C) (min w (x + 1))).map fun i => (x - i, y + w - i)

/-- `iter_manhattan_radius`. -/
def iterManhattanRadius (x y : Nat) (g : Grid) (w : Nat) : List PointN :=
  ringPart1 x y w ++ ringPart2 x y w (numRows g) ++
  ringPart3 x y w (numRows g) (numCols g) ++ ringPart4 x y w (numCols g)

/-- `iter_closest`: the agent's own cell, then the rings of width
`1, ..., max(x, rows - x - 1) + max(y, cols - y - 1)`. -/
def iterClosest (x y : Nat) (g : Grid) : List PointN :=
  (x, y) ::
    (pyRange 1 (max x (numRows g - x - 1) + max y (numCols g - y - 1) + 1)).flatMap
      (iterManhattanRadius x y g)

/-- Manhattan distance on natural coordinates. -/
def manhattanN (a b : PointN) : Nat :=
  ((a.1 - b.1) + (b.1 - a.1)) + ((a.2 - b.2) + (b.2 - a.2))

/-- Natural-number grid indexing (`self.grid[coords]`). -/
def cellAtN (g : Grid) (p : PointN) : Option Cell :=
  (g[p.1]?).bind (·[p.2]?)

/-- The test `self.grid[coords] in values` of `find_nearest_cell` (the
enumerated coordinates are always in bounds, so the `none` case never
arises). -/
def matchesTypes (g : Grid) (cellTypes : List Cell) (p : PointN) : Bool :=
  match cellAtN g p with
  | some c => cellTypes.contains c
  | none => false

/-- `Agent.find_nearest_cell(*cell_types)`: the first enumerated cell
holding one of the requested values (`None` when the generator is
exhausted). -/
def findNearestCell (g : Grid) (x y : Nat) (cellTypes : List Cell) :
    Option PointN :=
  (iterClosest x y g).find? (matchesTypes g cellTypes)

/-! ### The decentralized agents (`separate_agents.py`)

Agent coordinates are Python ints (deltas of `-1`/`0`/`1` are added), so
they are embedded as integers; the ring searches index the grid with the
(always nonnegative, in runs) coordinates, written `.toNat`.

Two aspects are parameters of the embedding rather than translated code:

* `HullFn` stands for the hull-weighted selection block of
  `Agent.find_best_cell`: the row-major `np.argmin` of
  `(convex_hull_grid_heuristic + 1) * grid_distance_heuristic` over the
  matching cells, whose scores come from shapely's floating-point
  distance to the convex hull of the matching cells.  Floating-point
  scores are outside the embedding, so the selection is a parameter (a
  function of the grid, the requested cell types and the agent's cell);
  the theorems about the controller quantify over all such selections,
  which covers the source's.  `collinearHullArgmin` below instantiates
  the block exactly for the degenerate single-column grids of the
  concrete runs, where every hull score is a small integer.
* `choose` stands for `random_take` (`random.choice` on a set of
  candidate moves).  The concrete runs below only ever reach it with a
  single candidate, where every implementation agrees.

The half-integer personal-space scores
(`manhattan - max(priority difference, 0) / 2`, exact in floating point)
are scaled by two, which preserves every comparison the code makes; the
thresholds `> 6` and `>= 2` on them become `> 12` and `>= 4`. -/

/-- The hull-weighted argmin block of `Agent.find_best_cell`, as a
function of the grid, the requested cell types and the agent's cell. -/
abbrev HullFn := Grid → List Cell → PointN → PointN

/-- The tie-breaking choice (`random_take`); the trace theorems only hit
singleton candidate lists. -/
abbrev ChooseFn := List PointI → PointI

/-- `Vacuum`/`Mop` state: position and current goal. -/
structure PlainAgent where
  x : Int
  y : Int
  goal : Option PointI
deriving DecidableEq, Repr

/-- `Garbage` state: position, goal, load, capacity and the current
target cell types. -/
structure GarbageAgent where
  x : Int
  y : Int
  goal : Option PointI
  currentTrash : Nat
  trashCapacity : Nat
  cellTypes : List Cell
deriving DecidableEq, Repr

/-- `SeparateAgents` state: the shared grid plus the three agents, kept
in the tick order of the agents dict (garbage, vacuum, mop). -/
structure SepState where
  grid : Grid
  garbage : GarbageAgent
  vacuum : PlainAgent
  mop : PlainAgent
deriving DecidableEq, Repr

/-- `Agent.priority`: 1 with a goal, else 0. -/
def plainPriority (a : PlainAgent) : Nat := if a.goal.isSome then 1 else 0

/-- `Garbage.priority`: `int(current_trash == capacity) + 1`. -/
def garbagePriority (a : GarbageAgent) : Nat :=
  (if a.currentTrash = a.trashCapacity then 1 else 0) + 1

/-- One scaled `agent_distances` entry:
`2·manhattan(test_pos, other.pos) - max(self.priority - other.priority, 0)`
(the source divides the discount by two; values here are doubled). -/
def scaledDistance (sp : Nat) (tp : PointI) (other : Nat × PointI) : Int :=
  2 * (manhattanI tp other.2 : Int) - max ((sp : Int) - (other.1 : Int)) 0

/-- `agent_distances(...)`: the scaled distances to the two other
agents. -/
def agentDistancesScaled (others : List (Nat × PointI)) (sp : Nat)
    (tp : PointI) : List Int :=
  others.map (scaledDistance sp tp)

/-- Python `min` over the (never empty in the source) values. -/
def minD : List Int → Int
  | [] => 0
  | h :: t => t.foldl min h

/-- Python `max` over the (never empty in the source) values. -/
def maxD : List Int → Int
  | [] => 0
  | h :: t => t.foldl max h

/-- `Agent.valid_moves`: the five candidate deltas, bounds-checked (note:
walls are not checked here). -/
def moveDeltas : List PointI := [(0, 0), (-1, 0), (0, -1), (1, 0), (0, 1)]

def validMovesSep (g : Grid) (x y : Int) : List PointI :=
  moveDeltas.filter fun d =>
    decide (0 ≤ x + d.1) && decide (x + d.1 < (numRows g : Int)) &&
    decide (0 ≤ y + d.2) && decide (y + d.2 < (numCols g : Int))

/-- `Agent.personal_space_heuristic` (scaled): per candidate delta, the
least scaled distance to the other agents after the move. -/
def personalSpaceHeuristic (g : Grid) (others : List (Nat × PointI))
    (sp : Nat) (x y : Int) : List (PointI × Int) :=
  (validMovesSep g x y).map fun d =>
    (d, minD (agentDistancesScaled others sp (x + d.1, y + d.2)))

/-- `Agent.manhattan_distance_heuristic`: per candidate delta, the
distance from the moved position to the given cell. -/
def manhattanHeuristic (g : Grid) (x y : Int) (cell : PointI) :
    List (PointI × Int) :=
  (validMovesSep g x y).map fun d =>
    (d, (manhattanI (x + d.1, y + d.2) cell : Int))

/-- `best_keys(heuristic, metric)`: the keys attaining the best value (a
Python set; modelled as the sublist in insertion order). -/
def bestKeysBy (metric : List Int → Int) (h : List (PointI × Int)) :
    List PointI :=
  (h.filter fun kv => kv.2 = metric (h.map Prod.snd)).map Prod.fst

/-- `TARGETS - set(self.cell_types)`. -/
def targetsMinus (cellTypes : List Cell) : List Cell :=
  [Cell.BIN, Cell.DRYTRASH, Cell.DUSTY, Cell.WETTRASH, Cell.SOAKED].filter
    (fun c => decide (c ∉ cellTypes))

/-- `Agent.type_distance_heuristic`: per candidate delta, the nearest
cell of the requested types from the moved position (deltas with no such
cell are absent, as the generator never breaks). -/
def typeDistanceHeuristic (g : Grid) (cellTypes : List Cell) (x y : Int) :
    List (PointI × PointN) :=
  (validMovesSep g x y).filterMap fun d =>
    match findNearestCell g (x + d.1).toNat (y + d.2).toNat cellTypes with
    | some c => some (d, c)
    | none => none

/-- Row-major enumeration of all grid indices (the flat order of
`np.argmin`/`np.unravel_index`). -/
def rowMajorCells (g : Grid) : List PointN :=
  (List.range (numRows g)).flatMap fun i =>
    (List.range (numCols g)).map fun j => (i, j)

/-- First row-major argmin of `f` over the cells satisfying `pred`
(`np.argmin` returns the first minimising flat index; non-matching cells
carry `inf`). -/
def argminRowMajor (g : Grid) (f : PointN → Nat) (pred : PointN → Bool) :
    Option PointN :=
  ((rowMajorCells g).filter pred).foldl
    (fun acc p =>
      match acc with
      | none => some p
      | some q => if f p < f q then some p else acc)
    none

/-- `Agent.find_best_cell`: `None` when no cell matches; the agent's own
cell when it matches; otherwise the hull-weighted argmin over the
matching cells (the `hull` parameter). -/
def findBestCellBase (hull : HullFn) (g : Grid) (cellTypes : List Cell)
    (x y : Int) : Option PointN :=
  if cellTypes.any (containsCell g) then
    if matchesTypes g cellTypes (x.toNat, y.toNat) then some (x.toNat, y.toNat)
    else some (hull g cellTypes (x.toNat, y.toNat))
  else none

/-- `Garbage.find_best_cell`: a plain nearest-`BIN` ring search once
`BIN` is among the targets. -/
def findBestCellGarbage (hull : HullFn) (g : Grid) (cellTypes : List Cell)
    (x y : Int) : Option PointN :=
  if Cell.BIN ∈ cellTypes then findNearestCell g x.toNat y.toNat [Cell.BIN]
  else findBestCellBase hull g cellTypes x y

/-- Cast the numpy index pair returned by the selectors to the Python int
pair stored in `self.goal`. -/
def toPointI (p : PointN) : PointI := ((p.1 : Int), (p.2 : Int))

/-- `Agent.run_away`: when the agent has no goal, pick an evasion move;
returns the chosen delta, or `none` when the agent does not move (goal
set, or comfortably far with no close target).  In the source, a missing
nearest target combined with close-by agents raises an `AttributeError`
(`target_movements` is `None`); the model yields no move there. -/
def runAwayBase (choose : ChooseFn) (g : Grid) (others : List (Nat × PointI))
    (sp : Nat) (cellTypes : List Cell) (x y : Int) (goal : Option PointI) :
    Option PointI :=
  match goal with
  | some _ => none
  | none =>
    let personal := personalSpaceHeuristic g others sp x y
    match findNearestCell g x.toNat y.toNat (targetsMinus cellTypes) with
    | none => none
    | some nt =>
      if maxD (personal.map Prod.snd) > 12 ∧
          manhattanI (x, y) (toPointI nt) > 6 then none
      else
        let targetMovements := manhattanHeuristic g x y (toPointI nt)
        let pm := if maxD (personal.map Prod.snd) > 12 then targetMovements
          else personal
        let bestPersonal := bestKeysBy maxD pm
        some (choose (bestKeysBy maxD
          (targetMovements.filter fun kv => decide (kv.1 ∈ bestPersonal))))

/-- `Garbage.run_away`: at full load with every other agent at scaled
distance at least 4 (i.e. two cells), hold position; otherwise behave as
the base class. -/
def runAwayGarbage (choose : ChooseFn) (g : Grid)
    (others : List (Nat × PointI)) (ga : GarbageAgent) : Option PointI :=
  let distances := agentDistancesScaled others (garbagePriority ga) (ga.x, ga.y)
  if ga.currentTrash = ga.trashCapacity ∧ minD distances ≥ 4 then none
  else runAwayBase choose g others (garbagePriority ga) ga.cellTypes
    ga.x ga.y ga.goal

/-- `Agent.move_closer`: the chosen delta, plus whether the goal was
cleared (the crowded branch sets `self.goal = None`). -/
def moveCloser (choose : ChooseFn) (g : Grid) (others : List (Nat × PointI))
    (sp : Nat) (cellTypes : List Cell) (x y : Int) (goal : PointI) :
    PointI × Bool :=
  let personal := personalSpaceHeuristic g others sp x y
  let closer := manhattanHeuristic g x y goal
  if minD (personal.map Prod.snd) > 0 then
    let bm := bestKeysBy minD closer
    (choose (bestKeysBy maxD
      (personal.filter fun kv => decide (kv.1 ∈ bm))), false)
  else
    let bm := bestKeysBy maxD personal
    let closestTrash := typeDistanceHeuristic g cellTypes x y
    let moveDistances := closestTrash.filterMap fun dc =>
      if dc.1 ∈ bm then
        some (dc.1, (manhattanI (x + dc.1.1, y + dc.1.2) (toPointI dc.2) : Int))
      else none
    let key := choose (bestKeysBy minD moveDistances)
    if bm.length = 1 then (choose bm, true) else (key, true)

/-- `Agent.clean_up` (used by `Vacuum` and `Mop`): clear the current cell
unless it is a wall or a bin. -/
def cleanUpBase (g : Grid) (pos : PointI) : Grid :=
  match cellAt g pos with
  | some c => if c = Cell.WALL ∨ c = Cell.BIN then g else setCell g pos Cell.EMPTY
  | none => g

/-- `Garbage.clean_up`: empty the load into a bin; bag dry/wet trash
(leaving `DUSTY`/`SOAKED` residue), switching to bin mode at capacity;
otherwise do nothing. -/
def cleanUpGarbage (g : Grid) (ga : GarbageAgent) : Grid × GarbageAgent :=
  match cellAt g (ga.x, ga.y) with
  | some Cell.BIN =>
      (g, { ga with currentTrash := 0,
                    cellTypes := [Cell.WETTRASH, Cell.DRYTRASH] })
  | some Cell.WETTRASH =>
      (setCell g (ga.x, ga.y) Cell.SOAKED,
       { ga with currentTrash := ga.currentTrash + 1,
                 cellTypes := if ga.currentTrash + 1 = ga.trashCapacity
                   then [Cell.BIN] else ga.cellTypes })
  | some Cell.DRYTRASH =>
      (setCell g (ga.x, ga.y) Cell.DUSTY,
       { ga with currentTrash := ga.currentTrash + 1,
                 cellTypes := if ga.currentTrash + 1 = ga.trashCapacity
                   then [Cell.BIN] else ga.cellTypes })
  | _ => (g, ga)

/-- `Agent.tick` for `Vacuum`/`Mop`: refresh the goal, evade if goal-less,
else step toward the goal; on arrival clean up and clear the goal. -/
def plainTick (hull : HullFn) (choose : ChooseFn) (g : Grid)
    (others : List (Nat × PointI)) (cellTypes : List Cell) (a : PlainAgent) :
    Grid × PlainAgent :=
  let goal1 : Option PointI :=
    match a.goal with
    | some p => some p
    | none => (findBestCellBase hull g cellTypes a.x a.y).map toPointI
  let sp : Nat := if goal1.isSome then 1 else 0
  match runAwayBase choose g others sp cellTypes a.x a.y goal1 with
  | some d => (g, { a with x := a.x + d.1, y := a.y + d.2, goal := goal1 })
  | none =>
    match goal1 with
    | none => (g, { a with goal := none })
    | some gl =>
      let dc := moveCloser choose g others sp cellTypes a.x a.y gl
      let nx := a.x + dc.1.1
      let ny := a.y + dc.1.2
      if dc.2 then (g, { a with x := nx, y := ny, goal := none })
      else if (nx, ny) = gl then
        (cleanUpBase g (nx, ny), { a with x := nx, y := ny, goal := none })
      else (g, { a with x := nx, y := ny, goal := some gl })

/-- The body of the garbage tick after the target types and the goal have
been refreshed (the state `ga1` carries both): evade, stand still without
a goal, or step toward the goal and clean up on arrival. -/
def garbageStep (choose : ChooseFn) (g : Grid)
    (others : List (Nat × PointI)) (ga1 : GarbageAgent) :
    Grid × GarbageAgent :=
  match runAwayGarbage choose g others ga1 with
  | some d => (g, { ga1 with x := ga1.x + d.1, y := ga1.y + d.2 })
  | none =>
    match ga1.goal with
    | none => (g, ga1)
    | some gl =>
      let dc := moveCloser choose g others (garbagePriority ga1)
        ga1.cellTypes ga1.x ga1.y gl
      let nx := ga1.x + dc.1.1
      let ny := ga1.y + dc.1.2
      if dc.2 then (g, { ga1 with x := nx, y := ny, goal := none })
      else if (nx, ny) = gl then
        let r := cleanUpGarbage g { ga1 with x := nx, y := ny }
        (r.1, { r.2 with goal := none })
      else (g, { ga1 with x := nx, y := ny, goal := some gl })

/-- `Garbage.tick`: switch to bin mode when no trash remains and the load
is nonzero, refresh the goal, then take the step. -/
def garbageTick (hull : HullFn) (choose : ChooseFn) (g : Grid)
    (others : List (Nat × PointI)) (ga : GarbageAgent) :
    Grid × GarbageAgent :=
  let ct := if containsCell g Cell.WETTRASH = false ∧
      containsCell g Cell.DRYTRASH = false ∧ ga.currentTrash ≠ 0
    then [Cell.BIN] else ga.cellTypes
  let goal1 : Option PointI :=
    match ga.goal with
    | some p => some p
    | none => (findBestCellGarbage hull g ct ga.x ga.y).map toPointI
  garbageStep choose g others { ga with cellTypes := ct, goal := goal1 }

/-- `SeparateAgents.tick`: step the agents in dict order (garbage,
vacuum, mop); each later agent sees the earlier agents' updated state. -/
def sepTick (hull : HullFn) (choose : ChooseFn) (s : SepState) : SepState :=
  let rg := garbageTick hull choose s.grid
    [(plainPriority s.vacuum, (s.vacuum.x, s.vacuum.y)),
     (plainPriority s.mop, (s.mop.x, s.mop.y))] s.garbage
  let rv := plainTick hull choose rg.1
    [(garbagePriority rg.2, (rg.2.x, rg.2.y)),
     (plainPriority s.mop, (s.mop.x, s.mop.y))] [Cell.DUSTY] s.vacuum
  let rm := plainTick hull choose rv.1
    [(garbagePriority rg.2, (rg.2.x, rg.2.y)),
     (plainPriority rv.2, (rv.2.x, rv.2.y))] [Cell.SOAKED] s.mop
  { grid := rm.1, garbage := rg.2, vacuum := rv.2, mop := rm.2 }

/-- `SeparateAgents.finished`: false when some agent still holds a goal
or the garbage agent still carries trash; the grid is not inspected. -/
def finishedSep (s : SepState) : Bool :=
  !(s.garbage.goal.isSome || decide (0 < s.garbage.currentTrash)) &&
  !s.vacuum.goal.isSome && !s.mop.goal.isSome

/-- `Simulator.probably_looping`:
`ticks > (max(rows, cols) ** 2) * 10`. -/
def probablyLooping (ticks rows cols : Nat) : Bool :=
  decide (ticks > (max rows cols) ^ 2 * 10)

/-- The watchdog bound itself. -/
def watchdogBound (rows cols : Nat) : Nat := (max rows cols) ^ 2 * 10

/-- The grid scan of `Simulator.finished_sim`: no hazard cell remains. -/
def gridHazardFree (g : Grid) : Bool :=
  !(containsCell g Cell.SOAKED || containsCell g Cell.WETTRASH ||
    containsCell g Cell.DUSTY || containsCell g Cell.DRYTRASH)

/-- `Simulator.finished_sim`:
`(agents_finished and grid_finished) or self.probably_looping`. -/
def finishedSim (g : Grid) (agentsFinished : Bool) (ticks rows cols : Nat) :
    Bool :=
  (agentsFinished && gridHazardFree g) || probablyLooping ticks rows cols

/-- The distance of row `a` to the rows `lo`/`hi` (as naturals,
`|a - b|` written with truncated subtraction). -/
def rowDist (a b : Nat) : Nat := (a - b) + (b - a)

/-- The hull-weighted selection block, instantiated exactly for the
degenerate case exercised by the concrete runs below: every matching cell
lies in a single column, so the convex hull of the matching indices is
the vertical segment between the extreme matching rows, its boundary is
the pair of endpoints, and the (float, here exactly integral)
shapely distance from a grid index in the same column is the lesser
distance to the two endpoints.  With fewer than two matching cells the
heuristic is the zero array, and the selected cell is the first row-major
argmin of `(hull + 1) * manhattan_to_agent` over the matching cells. -/
def collinearHullArgmin : HullFn := fun g ts center =>
  let matching := (rowMajorCells g).filter (matchesTypes g ts)
  let rows := matching.map Prod.fst
  let hullVal : PointN → Nat :=
    match rows with
    | [] => fun _ => 0
    | [_] => fun _ => 0
    | h :: t => fun p => min (rowDist p.1 (t.foldl min h)) (rowDist p.1 (t.foldl max h))
  (argminRowMajor g (fun p => (hullVal p + 1) * manhattanN p center)
    (matchesTypes g ts)).getD center

/-- Head-of-list tie-breaking for `random_take`; agrees with every
implementation on the singleton candidate sets of the traces. -/
def chooseHead : ChooseFn := fun l => l.headD (0, 0)

/-- The goal, when set, is a `BIN` cell. -/
def goalIsBin (g : Grid) (goal : Option PointI) : Bool :=
  match goal with
  | some p => cellAt g p = some Cell.BIN
  | none => true

/-- The garbage-agent invariant of the decentralized controller: the load
never exceeds the capacity, and at full load the target type is `BIN` and
any set goal is a bin cell. -/
def GarbageInv (s : SepState) : Prop :=
  s.garbage.currentTrash ≤ s.garbage.trashCapacity ∧
  (s.garbage.currentTrash = s.garbage.trashCapacity →
    s.garbage.cellTypes = [Cell.BIN] ∧
    goalIsBin s.grid s.garbage.goal = true)

/-! ### Reachability

Both searches only ever enqueue `apply_action` results that pass
`is_valid_move`, so the cells they can visit are exactly those reachable
through valid single-cell steps. -/

/-- One valid search step: a cell produced by `apply_action` that passes
`is_valid_move`. -/
def validStep (g : Grid) (p q : PointI) : Prop :=
  (∃ a, q = applyAction g p a) ∧ isValidMove g q = true

/-- `q` is reachable from `p` through valid steps. -/
def Reach (g : Grid) (p q : PointI) : Prop :=
  Relation.ReflTransGen (validStep g) p q

/-! ### Concrete instances used by the claim theorems -/

/-- A wall-free 3×1 grid (three rows, one column). -/
def gridCol3 : Grid := [[Cell.EMPTY], [Cell.EMPTY], [Cell.EMPTY]]

/-- A 4×1 grid with a single `DUSTY` cell at `(1, 0)`. -/
def gridCol4 : Grid := [[Cell.EMPTY], [Cell.DUSTY], [Cell.EMPTY], [Cell.EMPTY]]

/-- A centralized-controller state on `gridCol4`: the garbage agent is
parked at `(3,0)` with nothing to collect, the vacuum at `(0,0)` is one
step from the dusty cell `(1,0)`, and the mop already stands on `(1,0)`
with no soaked cell anywhere. -/
def collisionInit : AStarState :=
  { grid := gridCol4, gpos := (3, 0), vpos := (0, 0), mpos := (1, 0),
    pickupCount := 0, garbageToBin := false, garbageActionsBin := [] }

/-- A 1×3 grid whose middle cell is a wall, so `(0,2)` is unreachable
from `(0,0)`. -/
def gridWalled : Grid := [[Cell.EMPTY, Cell.WALL, Cell.EMPTY]]

/-- A 20×1 bin-free column: ten `WETTRASH` cells at rows 3–12, the rest
empty. -/
def sepColumnGrid : Grid :=
  List.replicate 3 [Cell.EMPTY] ++ List.replicate 10 [Cell.WETTRASH] ++
    List.replicate 7 [Cell.EMPTY]

/-- A decentralized run on `sepColumnGrid`: the garbage agent (capacity
10, the `CLASS_MAP` default) starts just below the trash column, the mop
trails it, and the vacuum is parked at the far end (beyond both its
personal-space threshold and every target). -/
def sepCapacityInit : SepState :=
  { grid := sepColumnGrid,
    garbage := { x := 2, y := 0, goal := none, currentTrash := 0,
                 trashCapacity := 10,
                 cellTypes := [Cell.WETTRASH, Cell.DRYTRASH] },
    vacuum := { x := 19, y := 0, goal := none },
    mop := { x := 0, y := 0, goal := none } }

/-- The state after `n` ticks of the decentralized controller from
`sepCapacityInit` (every tie-break set along this run is a singleton, so
`chooseHead` agrees with the source's random choice, and every matching
cell set is confined to the single column, where `collinearHullArgmin` is
the source's exact hull-weighted selection). -/
def c4Run (n : Nat) : SepState :=
  Nat.iterate (sepTick collinearHullArgmin chooseHead) n sepCapacityInit

/-- The state one tick of the centralized controller produces from
`collisionInit`: the vacuum moved onto `(1,0)` and cleaned it, the mop
stayed on `(1,0)`. -/
def collisionPost : AStarState :=
  { grid := [[Cell.EMPTY], [Cell.EMPTY], [Cell.EMPTY], [Cell.EMPTY]],
    gpos := (3, 0), vpos := (1, 0), mpos := (1, 0),
    pickupCount := 0, garbageToBin := false, garbageActionsBin := [] }

/-- A decentralized state whose 1×1 grid is a single `DRYTRASH` cell
while no agent holds a goal and the garbage load is zero. -/
def c2State : SepState :=
  { grid := [[Cell.DRYTRASH]],
    garbage := { x := 0, y := 0, goal := none, currentTrash := 0,
                 trashCapacity := 10,
                 cellTypes := [Cell.WETTRASH, Cell.DRYTRASH] },
    vacuum := { x := 0, y := 0, goal := none },
    mop := { x := 0, y := 0, goal := none } }

/-! ## Lemmas -/

theorem popMin_none {l : List Entry} (h : popMin l = none) : l = [] := by
  cases l with
  | nil => rfl
  | cons a as =>
    simp only [popMin] at h
    cases hm : popMin as with
    | none => rw [hm] at h; simp at h
    | some p => rw [hm] at h; cases hle : entryLe a p.1 <;> simp [hle] at h

theorem popMin_mem {l : List Entry} {e : Entry} {rest : List Entry}
    (h : popMin l = some (e, rest)) : e ∈ l := by
  induction l generalizing e rest with
  | nil => simp [popMin] at h
  | cons a as ih =>
    simp only [popMin] at h
    cases hm : popMin as with
    | none => rw [hm] at h; simp at h; simp [h.1]
    | some p =>
      rw [hm] at h
      obtain ⟨m, r⟩ := p
      by_cases hle : entryLe a m
      · simp [hle] at h; simp [h.1]
      · simp [hle] at h
        have := ih hm
        right
        rw [h.1] at this
        exact this

theorem popMin_length {l : List Entry} {e : Entry} {rest : List Entry}
    (h : popMin l = some (e, rest)) : rest.length + 1 = l.length := by
  induction l generalizing e rest with
  | nil => simp [popMin] at h
  | cons a as ih =>
    simp only [popMin] at h
    cases hm : popMin as with
    | none =>
      rw [hm] at h; simp at h
      have : as = [] := popMin_none hm
      subst this
      rw [← h.2]
      simp
    | some p =>
      rw [hm] at h
      obtain ⟨m, r⟩ := p
      by_cases hle : entryLe a m
      · simp [hle] at h; rw [← h.2]; simp
      · simp [hle] at h
        have := ih hm
        rw [← h.2]
        simp only [List.length_cons]
        omega

theorem popMin_sublist_mem {l : List Entry} {e : Entry} {rest : List Entry}
    (h : popMin l = some (e, rest)) : ∀ x ∈ rest, x ∈ l := by
  induction l generalizing e rest with
  | nil => simp [popMin] at h
  | cons a as ih =>
    simp only [popMin] at h
    cases hm : popMin as with
    | none =>
      rw [hm] at h; simp at h
      intro x hx
      rw [h.2] at hx
      simp at hx
    | some p =>
      rw [hm] at h
      obtain ⟨m, r⟩ := p
      by_cases hle : entryLe a m
      · simp [hle] at h
        intro x hx
        rw [← h.2] at hx
        simp [hx]
      · simp [hle] at h
        intro x hx
        rw [← h.2] at hx
        rcases List.mem_cons.1 hx with h1 | h1
        · simp [h1]
        · exact List.mem_cons_of_mem a (ih hm x h1)


/-! ### Shape of `a_star` results -/

theorem reconstructPath_length_le_one (cf : CameFromA) (node : PointI) :
    (reconstructPath cf node).length ≤ 1 := by
  unfold reconstructPath
  cases lookupD cf node <;> simp

theorem astarLoop_length_le_one {g : Grid} {goal : PointI} {fuel : Nat}
    {opn : List Entry} {gs : GScore} {cf : CameFromA} {l : List Action}
    (h : astarLoop g goal fuel opn gs cf = some l) : l.length ≤ 1 := by
  induction fuel generalizing opn gs cf with
  | zero => simp [astarLoop] at h
  | succ n ih =>
    simp only [astarLoop] at h
    cases hp : popMin opn with
    | none =>
      rw [hp] at h
      injection h with h2
      rw [← h2]
      simp
    | some p =>
      rw [hp] at h
      obtain ⟨⟨c, node⟩, rest⟩ := p
      by_cases hg : node = goal
      · simp only [hg, if_pos rfl] at h
        have := Option.some.inj h
        rw [← this]
        exact reconstructPath_length_le_one ..
      · simp only [if_neg hg] at h
        exact ih h

/-- Because of the reconstruction behaviour, every path `a_star` returns
has at most one action. -/
theorem aStar_length_le_one {g : Grid} {start goal : PointI} {fuel : Nat}
    {l : List Action} (h : aStar g start goal fuel = some l) : l.length ≤ 1 :=
  astarLoop_length_le_one h

theorem manhattanI_self (p : PointI) : manhattanI p p = 0 := by
  simp [manhattanI]

/-- A single `apply_action` moves at most one cell. -/
theorem applyAction_dist_le_one (g : Grid) (p : PointI) (a : Action) :
    manhattanI (applyAction g p a) p ≤ 1 := by
  cases a <;> simp only [applyAction] <;> split <;> simp only [manhattanI] <;> omega

/-- Applying at most one action moves at most one cell. -/
theorem tickAgentPos_dist_le_one {g : Grid} {pos : PointI}
    {actions : List Action} (h : actions.length ≤ 1) :
    manhattanI (tickAgentPos g pos actions) pos ≤ 1 := by
  match actions with
  | [] => simp [tickAgentPos, manhattanI_self]
  | [a] => simpa [tickAgentPos] using applyAction_dist_le_one g pos a
  | a :: b :: t => simp at h

theorem tickAgentVacuum_pos (g : Grid) (pos : PointI) (actions : List Action) :
    (tickAgentVacuum g pos actions).2 = tickAgentPos g pos actions := by
  simp only [tickAgentVacuum]
  split <;> rfl

theorem tickAgentMop_pos (g : Grid) (pos : PointI) (actions : List Action) :
    (tickAgentMop g pos actions).2 = tickAgentPos g pos actions := by
  simp only [tickAgentMop]
  split <;> rfl

theorem tickAgentGarbage_pos (g : Grid) (pos : PointI) (count : Nat)
    (actions : List Action) :
    (tickAgentGarbage g pos count actions).2.1 = tickAgentPos g pos actions := rfl

theorem vmPhase_gpos (s : AStarState) (va ma : List Action) :
    (vmPhase s va ma).gpos = s.gpos := rfl

theorem vmPhase_vpos (s : AStarState) (va ma : List Action) :
    (vmPhase s va ma).vpos = tickAgentPos s.grid s.vpos va := by
  simp only [vmPhase, tickAgentVacuum_pos]

theorem vmPhase_mpos (s : AStarState) (va ma : List Action) :
    (vmPhase s va ma).mpos =
      tickAgentPos (tickAgentVacuum s.grid s.vpos va).1 s.mpos ma := by
  simp only [vmPhase, tickAgentMop_pos]

theorem garbagePhase_gpos (s : AStarState) (acts : List Action) :
    (garbagePhase s acts).gpos = tickAgentPos s.grid s.gpos acts := rfl

theorem garbagePhase_vpos (s : AStarState) (acts : List Action) :
    (garbagePhase s acts).vpos = s.vpos := rfl

theorem garbagePhase_mpos (s : AStarState) (acts : List Action) :
    (garbagePhase s acts).mpos = s.mpos := rfl

/-! ### Bookkeeping for the searches -/

theorem lookupD_eq_none {β : Type} {l : List (PointI × β)} {p : PointI} :
    lookupD l p = none ↔ p ∉ l.map Prod.fst := by
  induction l with
  | nil => simp [lookupD]
  | cons kv t ih =>
    obtain ⟨k, v⟩ := kv
    by_cases h : p = k <;> simp [lookupD, h, ih]

theorem inBounds_of_valid {g : Grid} {p : PointI}
    (h : isValidMove g p = true) : inBoundsI g p = true := by
  simp only [isValidMove, Bool.and_eq_true, decide_eq_true_eq] at h
  simp only [inBoundsI, Bool.and_eq_true, decide_eq_true_eq]
  tauto

/-- A duplicate-free list of in-bounds cells is no longer than the grid
(each search enqueues every node at most once, so the visited set is
bounded). -/
theorem nodup_inBounds_length_le {g : Grid} {l : List PointI}
    (hnd : l.Nodup) (hb : ∀ p ∈ l, inBoundsI g p = true) :
    l.length ≤ numRows g * numCols g := by
  classical
  have hsub : l.toFinset ⊆
      (Finset.Ico (0 : ℤ) (numRows g)) ×ˢ (Finset.Ico (0 : ℤ) (numCols g)) := by
    intro p hp
    rw [List.mem_toFinset] at hp
    have hpb := hb p hp
    simp only [inBoundsI, Bool.and_eq_true, decide_eq_true_eq] at hpb
    simp only [Finset.mem_product, Finset.mem_Ico]
    tauto
  calc l.length = l.toFinset.card := (List.toFinset_card_of_nodup hnd).symm
    _ ≤ _ := Finset.card_le_card hsub
    _ = numRows g * numCols g := by
        rw [Finset.card_product, Int.card_Ico, Int.card_Ico]
        simp

/-! ### The expansion step of `a_star` -/

theorem astarExpandStep_cases (g : Grid) (goal cur : PointI)
    (st : List Entry × GScore × CameFromA) (a : Action) :
    astarExpandStep g goal cur st a = st ∨
    ∃ q, validStep g cur q ∧ lookupD st.2.1 q = none ∧
      astarExpandStep g goal cur st a =
        ((gScoreOf st.2.1 cur + 1 + manhattanI q goal, q) :: st.1,
         (q, gScoreOf st.2.1 cur + 1) :: st.2.1, (q, a) :: st.2.2) := by
  obtain ⟨opn, gs, cf⟩ := st
  simp only [astarExpandStep]
  by_cases h : isValidMove g (applyAction g cur a) &&
      (lookupD gs (applyAction g cur a)).isNone
  · right
    simp only [Bool.and_eq_true, Option.isNone_iff_eq_none] at h
    refine ⟨applyAction g cur a, ⟨⟨a, rfl⟩, h.1⟩, h.2, ?_⟩
    rw [if_pos]
    simp only [Bool.and_eq_true, Option.isNone_iff_eq_none]
    exact h
  · left
    rw [if_neg h]

/-- Invariant preservation and bookkeeping across one whole neighbour
expansion (`for action in Action`): the visited keys stay duplicate-free
and in bounds, the queue and the visited set grow by the same amount, and
every new queue entry is a valid step from the expanded node. -/
theorem astarFold_props (g : Grid) (goal cur : PointI) :
    ∀ (acts : List Action) (st : List Entry × GScore × CameFromA),
    (st.2.1.map Prod.fst).Nodup →
    (∀ p ∈ st.2.1.map Prod.fst, inBoundsI g p = true) →
    ((((acts.foldl (astarExpandStep g goal cur) st).2.1.map Prod.fst).Nodup) ∧
     (∀ p ∈ (acts.foldl (astarExpandStep g goal cur) st).2.1.map Prod.fst,
        inBoundsI g p = true) ∧
     (acts.foldl (astarExpandStep g goal cur) st).1.length + st.2.1.length =
       st.1.length + (acts.foldl (astarExpandStep g goal cur) st).2.1.length ∧
     st.1.length ≤ (acts.foldl (astarExpandStep g goal cur) st).1.length) := by
  intro acts
  induction acts with
  | nil =>
    intro st hnd hinb
    exact ⟨hnd, hinb, rfl, le_refl _⟩
  | cons a as ih =>
    intro st hnd hinb
    rw [List.foldl_cons]
    rcases astarExpandStep_cases g goal cur st a with heq | ⟨q, hstep, hnone, heq⟩
    · rw [heq]
      exact ih st hnd hinb
    · rw [heq]
      have hq : q ∉ st.2.1.map Prod.fst := lookupD_eq_none.mp hnone
      have hnd1 : (((q, gScoreOf st.2.1 cur + 1) :: st.2.1).map Prod.fst).Nodup := by
        simp only [List.map_cons, List.nodup_cons]
        exact ⟨hq, hnd⟩
      have hinb1 : ∀ p ∈ ((q, gScoreOf st.2.1 cur + 1) :: st.2.1).map Prod.fst,
          inBoundsI g p = true := by
        intro p hp
        simp only [List.map_cons, List.mem_cons] at hp
        rcases hp with rfl | hp
        · exact inBounds_of_valid hstep.2
        · exact hinb p hp
      obtain ⟨a1, a2, a3, a4⟩ :=
        ih ((gScoreOf st.2.1 cur + 1 + manhattanI q goal, q) :: st.1,
            (q, gScoreOf st.2.1 cur + 1) :: st.2.1, (q, a) :: st.2.2) hnd1 hinb1
      refine ⟨a1, a2, ?_, ?_⟩
      · simp only [List.length_cons] at a3 ⊢
        omega
      · simp only [List.length_cons] at a4 ⊢
        omega

/-- Every queue entry produced by a neighbour expansion is either an old
entry or a valid step away from the expanded node (no invariant needed). -/
theorem astarFold_mem (g : Grid) (goal cur : PointI) :
    ∀ (acts : List Action) (st : List Entry × GScore × CameFromA),
    ∀ e ∈ (acts.foldl (astarExpandStep g goal cur) st).1,
      e ∈ st.1 ∨ validStep g cur e.2 := by
  intro acts
  induction acts with
  | nil => intro st e he; exact Or.inl he
  | cons a as ih =>
    intro st e he
    rw [List.foldl_cons] at he
    rcases astarExpandStep_cases g goal cur st a with heq | ⟨q, hstep, _, heq⟩
    · rw [heq] at he
      exact ih st e he
    · rw [heq] at he
      rcases ih _ e he with he1 | he1
      · rcases List.mem_cons.1 he1 with rfl | he2
        · exact Or.inr hstep
        · exact Or.inl he2
      · exact Or.inr he1

/-! ### Termination of `a_star` -/

theorem astarLoop_isSome (g : Grid) (goal : PointI) :
    ∀ (fuel : Nat) (opn : List Entry) (gs : GScore) (cf : CameFromA),
    (gs.map Prod.fst).Nodup →
    (∀ p ∈ gs.map Prod.fst, inBoundsI g p = true) →
    opn.length + 2 * (numRows g * numCols g) < fuel + 2 * gs.length →
    (astarLoop g goal fuel opn gs cf).isSome := by
  intro fuel
  induction fuel with
  | zero =>
    intro opn gs cf hnd hinb hm
    exfalso
    have hcard : gs.length ≤ numRows g * numCols g := by
      have := nodup_inBounds_length_le hnd hinb
      simpa using this
    omega
  | succ n ih =>
    intro opn gs cf hnd hinb hm
    simp only [astarLoop]
    cases hp : popMin opn with
    | none => simp
    | some p =>
      obtain ⟨⟨c, node⟩, rest⟩ := p
      by_cases hg : node = goal
      · simp [hg]
      · simp only [if_neg hg]
        obtain ⟨a1, a2, a3, a4⟩ :=
          astarFold_props g goal node allActions (rest, gs, cf) hnd hinb
        apply ih _ _ _ a1 a2
        have hrl := popMin_length hp
        have hcard : gs.length ≤ numRows g * numCols g := by
          have := nodup_inBounds_length_le hnd hinb
          simpa using this
        simp only [astarExpand] at *
        omega

/-- `a_star` always terminates within the stated fuel: every node enters
the visited set (`g_score`) at most once, so the queue is drained after at
most twice-the-grid-size pops. -/
theorem aStar_isSome (g : Grid) (start goal : PointI)
    (hs : inBoundsI g start = true) :
    (aStar g start goal (astarFuel g)).isSome := by
  apply astarLoop_isSome
  · simp
  · simpa using hs
  · simp only [List.length_cons, List.length_nil, astarFuel]
    omega

/-! ### Unreachable goals -/

theorem astarLoop_eq_nil_of_unreachable (g : Grid) (start goal : PointI)
    (hun : ¬ Reach g start goal) :
    ∀ (fuel : Nat) (opn : List Entry) (gs : GScore) (cf : CameFromA),
    (∀ e ∈ opn, Reach g start e.2) →
    ∀ l, astarLoop g goal fuel opn gs cf = some l → l = [] := by
  intro fuel
  induction fuel with
  | zero => intro opn gs cf _ l h; simp [astarLoop] at h
  | succ n ih =>
    intro opn gs cf hreach l h
    simp only [astarLoop] at h
    cases hp : popMin opn with
    | none =>
      rw [hp] at h
      injection h with h2
      exact h2.symm
    | some p =>
      rw [hp] at h
      obtain ⟨⟨c, node⟩, rest⟩ := p
      have hnode : Reach g start node := hreach _ (popMin_mem hp)
      by_cases hg : node = goal
      · exact absurd (hg ▸ hnode) hun
      · simp only [if_neg hg] at h
        refine ih _ _ _ ?_ l h
        intro e he
        rcases astarFold_mem g goal node allActions (rest, gs, cf) e he with
          he1 | he1
        · exact hreach _ (popMin_sublist_mem hp _ he1)
        · exact Relation.ReflTransGen.tail hnode he1

/-- When start equals goal, the very first pop hits the goal and the
empty path is returned. -/
theorem aStar_self (g : Grid) (s : PointI) (fuel : Nat) :
    aStar g s s (fuel + 1) = some [] := by
  simp [aStar, astarLoop, popMin, reconstructPath, lookupD]

/-! ### `find_closest_goal` bookkeeping -/

theorem fcgExpandStep_cases (g : Grid) (start cur : PointI) (cost : Nat)
    (st : List Entry × CameFromN) (a : Action) :
    fcgExpandStep g start cur cost st a = st ∨
    ∃ q, validStep g cur q ∧ lookupD st.2 q = none ∧
      fcgExpandStep g start cur cost st a =
        ((cost + 1 + manhattanI q start, q) :: st.1, (q, cur) :: st.2) := by
  obtain ⟨opn, cf⟩ := st
  simp only [fcgExpandStep]
  by_cases h : isValidMove g (applyAction g cur a) &&
      (lookupD cf (applyAction g cur a)).isNone
  · right
    simp only [Bool.and_eq_true, Option.isNone_iff_eq_none] at h
    refine ⟨applyAction g cur a, ⟨⟨a, rfl⟩, h.1⟩, h.2, ?_⟩
    rw [if_pos]
    simp only [Bool.and_eq_true, Option.isNone_iff_eq_none]
    exact h
  · left
    rw [if_neg h]

theorem fcgFold_props (g : Grid) (start cur : PointI) (cost : Nat) :
    ∀ (acts : List Action) (st : List Entry × CameFromN),
    (st.2.map Prod.fst).Nodup →
    (∀ p ∈ st.2.map Prod.fst, inBoundsI g p = true) →
    ((((acts.foldl (fcgExpandStep g start cur cost) st).2.map Prod.fst).Nodup) ∧
     (∀ p ∈ (acts.foldl (fcgExpandStep g start cur cost) st).2.map Prod.fst,
        inBoundsI g p = true) ∧
     (acts.foldl (fcgExpandStep g start cur cost) st).1.length + st.2.length =
       st.1.length + (acts.foldl (fcgExpandStep g start cur cost) st).2.length ∧
     st.1.length ≤ (acts.foldl (fcgExpandStep g start cur cost) st).1.length) := by
  intro acts
  induction acts with
  | nil =>
    intro st hnd hinb
    exact ⟨hnd, hinb, rfl, le_refl _⟩
  | cons a as ih =>
    intro st hnd hinb
    rw [List.foldl_cons]
    rcases fcgExpandStep_cases g start cur cost st a with heq | ⟨q, hstep, hnone, heq⟩
    · rw [heq]
      exact ih st hnd hinb
    · rw [heq]
      have hq : q ∉ st.2.map Prod.fst := lookupD_eq_none.mp hnone
      have hnd1 : (((q, cur) :: st.2).map Prod.fst).Nodup := by
        simp only [List.map_cons, List.nodup_cons]
        exact ⟨hq, hnd⟩
      have hinb1 : ∀ p ∈ ((q, cur) :: st.2).map Prod.fst,
          inBoundsI g p = true := by
        intro p hp
        simp only [List.map_cons, List.mem_cons] at hp
        rcases hp with rfl | hp
        · exact inBounds_of_valid hstep.2
        · exact hinb p hp
      obtain ⟨a1, a2, a3, a4⟩ :=
        ih ((cost + 1 + manhattanI q start, q) :: st.1, (q, cur) :: st.2)
          hnd1 hinb1
      refine ⟨a1, a2, ?_, ?_⟩
      · simp only [List.length_cons] at a3 ⊢
        omega
      · simp only [List.length_cons] at a4 ⊢
        omega

theorem fcgFold_mem (g : Grid) (start cur : PointI) (cost : Nat) :
    ∀ (acts : List Action) (st : List Entry × CameFromN),
    ∀ e ∈ (acts.foldl (fcgExpandStep g start cur cost) st).1,
      e ∈ st.1 ∨ validStep g cur e.2 := by
  intro acts
  induction acts with
  | nil => intro st e he; exact Or.inl he
  | cons a as ih =>
    intro st e he
    rw [List.foldl_cons] at he
    rcases fcgExpandStep_cases g start cur cost st a with heq | ⟨q, hstep, _, heq⟩
    · rw [heq] at he
      exact ih st e he
    · rw [heq] at he
      rcases ih _ e he with he1 | he1
      · rcases List.mem_cons.1 he1 with rfl | he2
        · exact Or.inr hstep
        · exact Or.inl he2
      · exact Or.inr he1

theorem fcgLoop_isSome (g : Grid) (goalType : Cell) (start : PointI) :
    ∀ (fuel : Nat) (opn : List Entry) (cf : CameFromN),
    (cf.map Prod.fst).Nodup →
    (∀ p ∈ cf.map Prod.fst, inBoundsI g p = true) →
    opn.length + 2 * (numRows g * numCols g) < fuel + 2 * cf.length →
    (fcgLoop g goalType start fuel opn cf).isSome := by
  intro fuel
  induction fuel with
  | zero =>
    intro opn cf hnd hinb hm
    exfalso
    have hcard : cf.length ≤ numRows g * numCols g := by
      have := nodup_inBounds_length_le hnd hinb
      simpa using this
    omega
  | succ n ih =>
    intro opn cf hnd hinb hm
    simp only [fcgLoop]
    cases hp : popMin opn with
    | none => simp
    | some p =>
      obtain ⟨⟨c, node⟩, rest⟩ := p
      by_cases hg : cellAt g node = some goalType
      · simp [hg]
      · simp only [if_neg hg]
        obtain ⟨a1, a2, a3, a4⟩ :=
          fcgFold_props g start node c allActions (rest, cf) hnd hinb
        apply ih _ _ a1 a2
        have hrl := popMin_length hp
        have hcard : cf.length ≤ numRows g * numCols g := by
          have := nodup_inBounds_length_le hnd hinb
          simpa using this
        simp only [fcgExpand] at *
        omega

/-- `find_closest_goal` always terminates within the stated fuel. -/
theorem findClosestGoal_isSome (g : Grid) (start : PointI) (goalType : Cell) :
    (findClosestGoal g start goalType (fcgFuel g)).isSome := by
  apply fcgLoop_isSome
  · simp
  · simp
  · simp only [List.length_cons, List.length_nil, fcgFuel]
    omega

/-- Whatever `find_closest_goal` returns is either the fallback `start`
(queue drained with no goal found) or a cell of the requested type. -/
theorem fcgLoop_sound (g : Grid) (goalType : Cell) (start : PointI) :
    ∀ (fuel : Nat) (opn : List Entry) (cf : CameFromN) (r : PointI),
    fcgLoop g goalType start fuel opn cf = some r →
    r = start ∨ cellAt g r = some goalType := by
  intro fuel
  induction fuel with
  | zero => intro opn cf r h; simp [fcgLoop] at h
  | succ n ih =>
    intro opn cf r h
    simp only [fcgLoop] at h
    cases hp : popMin opn with
    | none =>
      rw [hp] at h
      injection h with h2
      exact Or.inl h2.symm
    | some p =>
      rw [hp] at h
      obtain ⟨⟨c, node⟩, rest⟩ := p
      by_cases hg : cellAt g node = some goalType
      · simp only [if_pos hg] at h
        injection h with h2
        exact Or.inr (h2 ▸ hg)
      · simp only [if_neg hg] at h
        exact ih _ _ _ h

theorem findClosestGoal_sound {g : Grid} {start : PointI} {goalType : Cell}
    {fuel : Nat} {r : PointI}
    (h : findClosestGoal g start goalType fuel = some r) :
    r = start ∨ cellAt g r = some goalType :=
  fcgLoop_sound g goalType start fuel _ _ r h

/-- When no reachable cell has the requested type, the search drains its
queue and falls back to `start`. -/
theorem fcgLoop_eq_start_of_unreachable (g : Grid) (goalType : Cell)
    (start : PointI)
    (hun : ∀ p, Reach g start p → cellAt g p ≠ some goalType) :
    ∀ (fuel : Nat) (opn : List Entry) (cf : CameFromN),
    (∀ e ∈ opn, Reach g start e.2) →
    ∀ r, fcgLoop g goalType start fuel opn cf = some r → r = start := by
  intro fuel
  induction fuel with
  | zero => intro opn cf _ r h; simp [fcgLoop] at h
  | succ n ih =>
    intro opn cf hreach r h
    simp only [fcgLoop] at h
    cases hp : popMin opn with
    | none =>
      rw [hp] at h
      injection h with h2
      exact h2.symm
    | some p =>
      rw [hp] at h
      obtain ⟨⟨c, node⟩, rest⟩ := p
      have hnode : Reach g start node := hreach _ (popMin_mem hp)
      by_cases hg : cellAt g node = some goalType
      · exact absurd hg (hun node hnode)
      · simp only [if_neg hg] at h
        refine ih _ _ ?_ r h
        intro e he
        rcases fcgFold_mem g start node c allActions (rest, cf) e he with
          he1 | he1
        · exact hreach _ (popMin_sublist_mem hp _ he1)
        · exact Relation.ReflTransGen.tail hnode he1

/-- No cell of the grid holds the given value when `containsCell` fails. -/
theorem cellAt_ne_of_not_contains {g : Grid} {c : Cell}
    (h : containsCell g c = false) (p : PointI) : cellAt g p ≠ some c := by
  intro hc
  unfold cellAt at hc
  split at hc
  · cases hrow : g[p.1.toNat]? with
    | none => rw [hrow] at hc; simp at hc
    | some row =>
      rw [hrow] at hc
      have hrmem : row ∈ g := by
        have := List.getElem?_eq_some_iff.mp hrow
        obtain ⟨hlt, hget⟩ := this
        exact hget ▸ List.getElem_mem hlt
      have hcmem : c ∈ row := by
        have := List.getElem?_eq_some_iff.mp hc
        obtain ⟨hlt, hget⟩ := this
        exact hget ▸ List.getElem_mem hlt
      unfold containsCell at h
      rw [List.any_eq_false] at h
      have h2 := h row hrmem
      rw [Bool.not_eq_true, List.any_eq_false] at h2
      have h3 := h2 c hcmem
      simp at h3
  · exact absurd hc (by simp)

/-! ### Ring-search lemmas -/

theorem pyRange_mem {a b i : Nat} : i ∈ pyRange a b ↔ a ≤ i ∧ i < b := by
  simp only [pyRange, List.mem_range']
  constructor
  · rintro ⟨j, hj, rfl⟩
    omega
  · intro h
    exact ⟨i - a, by omega, by omega⟩

theorem ringPart1_mem (x y w : Nat) (p : PointN) :
    p ∈ ringPart1 x y w ↔
      p.1 < x ∧ p.2 ≤ y ∧ (x - p.1) + (y - p.2) = w := by
  obtain ⟨a, b⟩ := p
  simp only [ringPart1, List.mem_map, pyRange_mem]
  constructor
  · rintro ⟨i, hi, heq⟩
    rw [Prod.mk.injEq] at heq
    omega
  · rintro ⟨h1, h2, h3⟩
    refine ⟨y - b, by omega, ?_⟩
    rw [Prod.mk.injEq]
    omega

theorem ringPart2_mem (x y w R : Nat) (p : PointN) :
    p ∈ ringPart2 x y w R ↔
      x ≤ p.1 ∧ p.1 < R ∧ p.2 < y ∧ (p.1 - x) + (y - p.2) = w := by
  obtain ⟨a, b⟩ := p
  simp only [ringPart2, List.mem_map, pyRange_mem]
  constructor
  · rintro ⟨i, hi, heq⟩
    rw [Prod.mk.injEq] at heq
    omega
  · rintro ⟨h1, h2, h3, h4⟩
    refine ⟨a - x, by omega, ?_⟩
    rw [Prod.mk.injEq]
    omega

theorem ringPart3_mem (x y w R C : Nat) (p : PointN) :
    p ∈ ringPart3 x y w R C ↔
      x < p.1 ∧ p.1 < R ∧ y ≤ p.2 ∧ p.2 < C ∧
        (p.1 - x) + (p.2 - y) = w := by
  obtain ⟨a, b⟩ := p
  simp only [ringPart3, List.mem_map, pyRange_mem]
  constructor
  · rintro ⟨i, hi, heq⟩
    rw [Prod.mk.injEq] at heq
    omega
  · rintro ⟨h1, h2, h3, h4, h5⟩
    refine ⟨b - y, by omega, ?_⟩
    rw [Prod.mk.injEq]
    omega

theorem ringPart4_mem (x y w C : Nat) (p : PointN) :
    p ∈ ringPart4 x y w C ↔
      p.1 ≤ x ∧ y < p.2 ∧ p.2 < C ∧ (x - p.1) + (p.2 - y) = w := by
  obtain ⟨a, b⟩ := p
  simp only [ringPart4, List.mem_map, pyRange_mem]
  constructor
  · rintro ⟨i, hi, heq⟩
    rw [Prod.mk.injEq] at heq
    omega
  · rintro ⟨h1, h2, h3, h4⟩
    refine ⟨x - a, by omega, ?_⟩
    rw [Prod.mk.injEq]
    omega

/-- Every cell of a width-`w` ring is at distance exactly `w`, in bounds
(given an in-bounds centre). -/
theorem iterManhattanRadius_mem (g : Grid) (x y w : Nat)
    (hx : x < numRows g) (hy : y < numCols g) (hw : 1 ≤ w) (p : PointN) :
    p ∈ iterManhattanRadius x y g w ↔
      p.1 < numRows g ∧ p.2 < numCols g ∧ manhattanN p (x, y) = w := by
  simp only [iterManhattanRadius, List.mem_append, ringPart1_mem,
    ringPart2_mem, ringPart3_mem, ringPart4_mem, manhattanN]
  omega

theorem pyRange_nodup (a b : Nat) : (pyRange a b).Nodup := by
  simp [pyRange, List.nodup_range']

theorem ringPart1_nodup (x y w : Nat) : (ringPart1 x y w).Nodup := by
  refine List.Nodup.map_on ?_ (pyRange_nodup _ _)
  intro i hi j hj heq
  rw [pyRange_mem] at hi hj
  rw [Prod.mk.injEq] at heq
  omega

theorem ringPart2_nodup (x y w R : Nat) : (ringPart2 x y w R).Nodup := by
  refine List.Nodup.map_on ?_ (pyRange_nodup _ _)
  intro i hi j hj heq
  rw [pyRange_mem] at hi hj
  rw [Prod.mk.injEq] at heq
  omega

theorem ringPart3_nodup (x y w R C : Nat) : (ringPart3 x y w R C).Nodup := by
  refine List.Nodup.map_on ?_ (pyRange_nodup _ _)
  intro i hi j hj heq
  rw [pyRange_mem] at hi hj
  rw [Prod.mk.injEq] at heq
  omega

theorem ringPart4_nodup (x y w C : Nat) : (ringPart4 x y w C).Nodup := by
  refine List.Nodup.map_on ?_ (pyRange_nodup _ _)
  intro i hi j hj heq
  rw [pyRange_mem] at hi hj
  rw [Prod.mk.injEq] at heq
  omega

/-- The four quadrant arcs are disjoint, so each ring lists every cell at
most once. -/
theorem iterManhattanRadius_nodup (g : Grid) (x y w : Nat) :
    (iterManhattanRadius x y g w).Nodup := by
  unfold iterManhattanRadius
  rw [List.nodup_append, List.nodup_append, List.nodup_append]
  refine ⟨⟨⟨ringPart1_nodup x y w, ringPart2_nodup x y w _, ?_⟩,
    ringPart3_nodup x y w _ _, ?_⟩, ringPart4_nodup x y w _, ?_⟩
  · intro p hp1 hp2
    rw [ringPart1_mem] at hp1
    rw [ringPart2_mem] at hp2
    omega
  · intro p hp1 hp3
    rw [List.mem_append, ringPart1_mem, ringPart2_mem] at hp1
    rw [ringPart3_mem] at hp3
    omega
  · intro p hp12 hp4
    rw [List.mem_append, List.mem_append, ringPart1_mem, ringPart2_mem,
      ringPart3_mem] at hp12
    rw [ringPart4_mem] at hp4
    omega

/-- Distance-labelled flat maps over an integer range are duplicate-free
when each block is. -/
theorem nodup_flatMap_ranges (f : Nat → List PointN) (dist : PointN → Nat)
    (hf : ∀ w p, p ∈ f w → dist p = w) (hnd : ∀ w, (f w).Nodup) :
    ∀ (n a : Nat), ((List.range' a n).flatMap f).Nodup := by
  intro n
  induction n with
  | zero => intro a; simp
  | succ m ih =>
    intro a
    rw [List.range'_succ, List.flatMap_cons, List.nodup_append]
    refine ⟨hnd a, ih (a + 1), ?_⟩
    intro p hp1 hp2
    rw [List.mem_flatMap] at hp2
    obtain ⟨w, hw, hpw⟩ := hp2
    rw [List.mem_range'] at hw
    obtain ⟨j, hj, rfl⟩ := hw
    have h1 := hf a p hp1
    have h2 := hf _ p hpw
    omega

/-- Distance-labelled flat maps over an integer range list cells in
non-decreasing distance order. -/
theorem pairwise_flatMap_ranges (f : Nat → List PointN) (dist : PointN → Nat)
    (hf : ∀ w p, p ∈ f w → dist p = w) :
    ∀ (n a : Nat), ((List.range' a n).flatMap f).Pairwise
      (fun p q => dist p ≤ dist q) := by
  intro n
  induction n with
  | zero => intro a; simp
  | succ m ih =>
    intro a
    rw [List.range'_succ, List.flatMap_cons, List.pairwise_append]
    refine ⟨?_, ih (a + 1), ?_⟩
    · refine List.pairwise_of_forall_mem_list ?_
      intro p hp q hq
      rw [hf a p hp, hf a q hq]
    · intro p hp q hq
      rw [List.mem_flatMap] at hq
      obtain ⟨w, hw, hqw⟩ := hq
      rw [List.mem_range'] at hw
      obtain ⟨j, hj, rfl⟩ := hw
      have h1 := hf a p hp
      have h2 := hf _ q hqw
      omega

/-- A point at Manhattan distance zero is the centre. -/
theorem manhattanN_eq_zero {p q : PointN} (h : manhattanN p q = 0) : p = q := by
  obtain ⟨a, b⟩ := p
  obtain ⟨c, d⟩ := q
  rw [Prod.mk.injEq]
  simp only [manhattanN] at h
  omega

/-- Full characterisation of `iter_closest`: it enumerates exactly the
in-bounds cells. -/
theorem iterClosest_mem (g : Grid) (x y : Nat)
    (hx : x < numRows g) (hy : y < numCols g) (p : PointN) :
    p ∈ iterClosest x y g ↔ p.1 < numRows g ∧ p.2 < numCols g := by
  unfold iterClosest
  rw [List.mem_cons]
  constructor
  · rintro (rfl | hp)
    · exact ⟨hx, hy⟩
    · rw [List.mem_flatMap] at hp
      obtain ⟨w, hw, hpw⟩ := hp
      rw [pyRange_mem] at hw
      exact ⟨((iterManhattanRadius_mem g x y w hx hy hw.1 p).mp hpw).1,
        ((iterManhattanRadius_mem g x y w hx hy hw.1 p).mp hpw).2.1⟩
  · rintro ⟨h1, h2⟩
    by_cases hc : p = (x, y)
    · exact Or.inl hc
    · right
      rw [List.mem_flatMap]
      refine ⟨manhattanN p (x, y), ?_, ?_⟩
      · rw [pyRange_mem]
        constructor
        · rcases Nat.eq_zero_or_pos (manhattanN p (x, y)) with h0 | h0
          · exact absurd (manhattanN_eq_zero h0) hc
          · exact h0
        · obtain ⟨a, b⟩ := p
          simp only [manhattanN]
          omega
      · rw [iterManhattanRadius_mem g x y _ hx hy]
        · exact ⟨h1, h2, rfl⟩
        · rcases Nat.eq_zero_or_pos (manhattanN p (x, y)) with h0 | h0
          · exact absurd (manhattanN_eq_zero h0) hc
          · exact h0

/-- `iter_closest` lists every cell at most once. -/
theorem iterClosest_nodup (g : Grid) (x y : Nat)
    (hx : x < numRows g) (hy : y < numCols g) :
    (iterClosest x y g).Nodup := by
  unfold iterClosest
  rw [List.nodup_cons]
  constructor
  · intro hmem
    rw [List.mem_flatMap] at hmem
    obtain ⟨w, hw, hpw⟩ := hmem
    rw [pyRange_mem] at hw
    have := ((iterManhattanRadius_mem g x y w hx hy hw.1 _).mp hpw).2.2
    simp only [manhattanN] at this
    omega
  · unfold pyRange
    refine nodup_flatMap_ranges (iterManhattanRadius x y g)
      (fun p => manhattanN p (x, y)) ?_
      (fun w => iterManhattanRadius_nodup g x y w) _ _
    intro w p hp
    rcases Nat.eq_zero_or_pos w with rfl | hw
    · exfalso
      obtain ⟨a, b⟩ := p
      simp only [iterManhattanRadius, List.mem_append, ringPart1_mem,
        ringPart2_mem, ringPart3_mem, ringPart4_mem] at hp
      omega
    · exact ((iterManhattanRadius_mem g x y w hx hy hw p).mp hp).2.2

/-- `iter_closest` enumerates cells in non-decreasing Manhattan
distance from the centre. -/
theorem iterClosest_pairwise (g : Grid) (x y : Nat)
    (hx : x < numRows g) (hy : y < numCols g) :
    (iterClosest x y g).Pairwise
      (fun p q => manhattanN p (x, y) ≤ manhattanN q (x, y)) := by
  unfold iterClosest
  rw [List.pairwise_cons]
  constructor
  · intro q _
    simp [manhattanN]
  · unfold pyRange
    refine pairwise_flatMap_ranges (iterManhattanRadius x y g)
      (fun p => manhattanN p (x, y)) ?_ _ _
    intro w p hp
    rcases Nat.eq_zero_or_pos w with rfl | hw
    · exfalso
      obtain ⟨a, b⟩ := p
      simp only [iterManhattanRadius, List.mem_append, ringPart1_mem,
        ringPart2_mem, ringPart3_mem, ringPart4_mem] at hp
      omega
    · exact ((iterManhattanRadius_mem g x y w hx hy hw p).mp hp).2.2

/-! ### Grid-update lemmas -/

theorem cellAt_setCell_ne (g : Grid) (p q : PointI) (v : Cell)
    (hne : p ≠ q) : cellAt (setCell g q v) p = cellAt g p := by
  unfold setCell cellAt
  by_cases hq : 0 ≤ q.1 ∧ 0 ≤ q.2
  · rw [if_pos hq]
    by_cases hp : 0 ≤ p.1 ∧ 0 ≤ p.2
    · rw [if_pos hp, if_pos hp]
      cases hrow : g[p.1.toNat]? with
      | none => simp [List.getElem?_modify, hrow]
      | some row =>
        by_cases hr : q.1.toNat = p.1.toNat
        · have hne2 : q.2.toNat ≠ p.2.toNat := by
            have h1 : p.1 = q.1 := by omega
            have h2 : p.2 ≠ q.2 := by
              intro h2
              exact hne (Prod.ext h1 h2)
            omega
          simp [List.getElem?_modify, hrow, hr, List.getElem?_set_ne hne2]
        · simp [List.getElem?_modify, hrow, hr]
    · rw [if_neg hp, if_neg hp]
  · rw [if_neg hq]

theorem cellAt_setCell_self {g : Grid} {p : PointI} {c : Cell} (v : Cell)
    (h : cellAt g p = some c) : cellAt (setCell g p v) p = some v := by
  unfold setCell cellAt
  unfold cellAt at h
  by_cases hp : 0 ≤ p.1 ∧ 0 ≤ p.2
  · rw [if_pos hp] at h ⊢
    rw [if_pos hp]
    cases hrow : g[p.1.toNat]? with
    | none => rw [hrow] at h; simp at h
    | some row =>
      rw [hrow] at h
      simp only at h
      have hlt : p.2.toNat < row.length := by
        by_contra hge
        rw [List.getElem?_eq_none (by omega)] at h
        simp at h
      simp [List.getElem?_modify, hrow, List.getElem?_set_self hlt]
  · rw [if_neg hp] at h
    simp at h

/-- The two grid-indexing views agree on cast coordinates. -/
theorem cellAt_toPointI (g : Grid) (p : PointN) :
    cellAt g (toPointI p) = cellAtN g p := by
  unfold cellAt cellAtN toPointI
  rw [if_pos (by constructor <;> simp)]
  simp only [Int.toNat_natCast]
  cases g[p.1]? <;> simp

theorem matchesTypes_bin {g : Grid} {p : PointN}
    (h : matchesTypes g [Cell.BIN] p = true) : cellAtN g p = some Cell.BIN := by
  unfold matchesTypes at h
  cases hc : cellAtN g p with
  | none => rw [hc] at h; simp at h
  | some c =>
    rw [hc] at h
    have : c = Cell.BIN := by simpa using h
    rw [this]

/-- `Agent.clean_up` never erases a bin. -/
theorem cleanUpBase_preserves_bin (g : Grid) (q p : PointI)
    (h : cellAt g p = some Cell.BIN) :
    cellAt (cleanUpBase g q) p = some Cell.BIN := by
  unfold cleanUpBase
  cases hc : cellAt g q with
  | none => exact h
  | some c =>
    show cellAt (if c = Cell.WALL ∨ c = Cell.BIN then g
      else setCell g q Cell.EMPTY) p = some Cell.BIN
    by_cases hwb : c = Cell.WALL ∨ c = Cell.BIN
    · rw [if_pos hwb]
      exact h
    · rw [if_neg hwb]
      have hne : p ≠ q := by
        intro rfl2
        rw [rfl2] at h
        rw [h] at hc
        injection hc with hc2
        exact hwb (Or.inr hc2.symm)
      rw [cellAt_setCell_ne g p q Cell.EMPTY hne]
      exact h

/-- A vacuum/mop tick never erases a bin. -/
theorem plainTick_preserves_bin (hull : HullFn) (choose : ChooseFn)
    (g : Grid) (others : List (Nat × PointI)) (ts : List Cell)
    (a : PlainAgent) (p : PointI) (h : cellAt g p = some Cell.BIN) :
    cellAt (plainTick hull choose g others ts a).1 p = some Cell.BIN := by
  simp only [plainTick]
  repeat' split
  all_goals first
    | exact h
    | exact cleanUpBase_preserves_bin g _ p h

/-- Everything `Garbage.clean_up` guarantees: the load stays within
capacity (a pickup is only possible below capacity, because at capacity
the cell under the agent is a bin by hypothesis), reaching capacity
switches the target type to `BIN`, bins survive, and the capacity itself
is untouched. -/
theorem cleanUpGarbage_inv (g : Grid) (ga : GarbageAgent)
    (hcap : 0 < ga.trashCapacity)
    (hle : ga.currentTrash ≤ ga.trashCapacity)
    (hmode : ga.currentTrash = ga.trashCapacity →
      ga.cellTypes = [Cell.BIN] ∧ cellAt g (ga.x, ga.y) = some Cell.BIN) :
    (cleanUpGarbage g ga).2.currentTrash ≤ (cleanUpGarbage g ga).2.trashCapacity ∧
    ((cleanUpGarbage g ga).2.currentTrash = (cleanUpGarbage g ga).2.trashCapacity →
      (cleanUpGarbage g ga).2.cellTypes = [Cell.BIN]) ∧
    (∀ p, cellAt g p = some Cell.BIN →
      cellAt (cleanUpGarbage g ga).1 p = some Cell.BIN) ∧
    (cleanUpGarbage g ga).2.trashCapacity = ga.trashCapacity := by
  have htrash : cellAt g (ga.x, ga.y) = some Cell.WETTRASH ∨
      cellAt g (ga.x, ga.y) = some Cell.DRYTRASH →
      ga.currentTrash < ga.trashCapacity := by
    intro hcell
    rcases Nat.lt_or_ge ga.currentTrash ga.trashCapacity with hlt | hge
    · exact hlt
    · exfalso
      have heq : ga.currentTrash = ga.trashCapacity := le_antisymm hle hge
      have hbin := (hmode heq).2
      rcases hcell with hcell | hcell <;> rw [hcell] at hbin <;> exact absurd hbin (by simp)
  have hpres : ∀ (v : Cell) (p : PointI),
      cellAt g (ga.x, ga.y) = some Cell.WETTRASH ∨
      cellAt g (ga.x, ga.y) = some Cell.DRYTRASH →
      cellAt g p = some Cell.BIN →
      cellAt (setCell g (ga.x, ga.y) v) p = some Cell.BIN := by
    intro v p hcell hbin
    have hne : p ≠ (ga.x, ga.y) := by
      intro rfl2
      rw [← rfl2] at hcell
      rcases hcell with hcell | hcell <;> rw [hbin] at hcell <;> simp at hcell
    rw [cellAt_setCell_ne g p (ga.x, ga.y) v hne]
    exact hbin
  unfold cleanUpGarbage
  cases hc : cellAt g (ga.x, ga.y) with
  | none =>
    dsimp only
    exact ⟨hle, fun h => (hmode h).1, fun p hp => hp, rfl⟩
  | some c =>
    cases c with
    | BIN =>
      dsimp only
      exact ⟨by omega, fun h => absurd h (by omega), fun p hp => hp, rfl⟩
    | WETTRASH =>
      have hlt := htrash (Or.inl hc)
      dsimp only
      refine ⟨by omega, ?_, ?_, rfl⟩
      · intro h
        rw [if_pos h]
      · intro p hp
        exact hpres Cell.SOAKED p (Or.inl hc) hp
    | DRYTRASH =>
      have hlt := htrash (Or.inr hc)
      dsimp only
      refine ⟨by omega, ?_, ?_, rfl⟩
      · intro h
        rw [if_pos h]
      · intro p hp
        exact hpres Cell.DUSTY p (Or.inr hc) hp
    | EMPTY =>
      dsimp only
      exact ⟨hle, fun h => (hmode h).1, fun p hp => hp, rfl⟩
    | DUSTY =>
      dsimp only
      exact ⟨hle, fun h => (hmode h).1, fun p hp => hp, rfl⟩
    | SOAKED =>
      dsimp only
      exact ⟨hle, fun h => (hmode h).1, fun p hp => hp, rfl⟩
    | WALL =>
      dsimp only
      exact ⟨hle, fun h => (hmode h).1, fun p hp => hp, rfl⟩

/-- `cleanUpGarbage_inv`, restated over the record fields so it unifies
with the record expressions produced inside the tick. -/
theorem cleanUpGarbage_inv2 (g : Grid) (x y : Int) (goal : Option PointI)
    (tr cap : Nat) (ct : List Cell)
    (hcap : 0 < cap) (hle : tr ≤ cap)
    (hmode : tr = cap → ct = [Cell.BIN] ∧ cellAt g (x, y) = some Cell.BIN) :
    (cleanUpGarbage g ⟨x, y, goal, tr, cap, ct⟩).2.currentTrash ≤
      (cleanUpGarbage g ⟨x, y, goal, tr, cap, ct⟩).2.trashCapacity ∧
    ((cleanUpGarbage g ⟨x, y, goal, tr, cap, ct⟩).2.currentTrash =
        (cleanUpGarbage g ⟨x, y, goal, tr, cap, ct⟩).2.trashCapacity →
      (cleanUpGarbage g ⟨x, y, goal, tr, cap, ct⟩).2.cellTypes = [Cell.BIN]) ∧
    (∀ p, cellAt g p = some Cell.BIN →
      cellAt (cleanUpGarbage g ⟨x, y, goal, tr, cap, ct⟩).1 p = some Cell.BIN) ∧
    (cleanUpGarbage g ⟨x, y, goal, tr, cap, ct⟩).2.trashCapacity = cap :=
  cleanUpGarbage_inv g ⟨x, y, goal, tr, cap, ct⟩ hcap hle hmode

/-- The garbage step preserves the load/target invariant and the grid's
bins. -/
theorem garbageStep_inv (choose : ChooseFn) (g : Grid)
    (others : List (Nat × PointI)) (ga1 : GarbageAgent)
    (hcap : 0 < ga1.trashCapacity)
    (hle : ga1.currentTrash ≤ ga1.trashCapacity)
    (hmode : ga1.currentTrash = ga1.trashCapacity →
      ga1.cellTypes = [Cell.BIN] ∧ goalIsBin g ga1.goal = true) :
    (garbageStep choose g others ga1).2.currentTrash ≤
      (garbageStep choose g others ga1).2.trashCapacity ∧
    ((garbageStep choose g others ga1).2.currentTrash =
        (garbageStep choose g others ga1).2.trashCapacity →
      (garbageStep choose g others ga1).2.cellTypes = [Cell.BIN] ∧
      goalIsBin (garbageStep choose g others ga1).1
        (garbageStep choose g others ga1).2.goal = true) ∧
    (∀ p, cellAt g p = some Cell.BIN →
      cellAt (garbageStep choose g others ga1).1 p = some Cell.BIN) ∧
    (garbageStep choose g others ga1).2.trashCapacity =
      ga1.trashCapacity := by
  unfold garbageStep
  split
  · -- run-away move: only the position changes
    dsimp only
    exact ⟨hle, hmode, fun p hp => hp, rfl⟩
  · split
    · -- no goal: nothing changes
      exact ⟨hle, hmode, fun p hp => hp, rfl⟩
    · rename_i gl heqGoal
      dsimp only
      split
      · -- crowded: goal cleared, grid untouched
        dsimp only
        exact ⟨hle, fun h => ⟨(hmode h).1, rfl⟩, fun p hp => hp, rfl⟩
      · split
        · -- arrived at the goal: clean up
          rename_i harr
          dsimp only
          have hmode2 : ga1.currentTrash = ga1.trashCapacity →
              ga1.cellTypes = [Cell.BIN] ∧
              cellAt g (ga1.x + (moveCloser choose g others
                  (garbagePriority ga1) ga1.cellTypes ga1.x ga1.y gl).1.1,
                ga1.y + (moveCloser choose g others (garbagePriority ga1)
                  ga1.cellTypes ga1.x ga1.y gl).1.2) = some Cell.BIN := by
            intro h
            refine ⟨(hmode h).1, ?_⟩
            have hb := (hmode h).2
            rw [heqGoal] at hb
            simp only [goalIsBin, decide_eq_true_eq] at hb
            rw [harr]
            exact hb
          refine ⟨(cleanUpGarbage_inv2 g _ _ _ _ _ _ hcap hle hmode2).1,
            fun h => ⟨(cleanUpGarbage_inv2 g _ _ _ _ _ _ hcap hle hmode2).2.1 h,
              rfl⟩,
            (cleanUpGarbage_inv2 g _ _ _ _ _ _ hcap hle hmode2).2.2.1,
            (cleanUpGarbage_inv2 g _ _ _ _ _ _ hcap hle hmode2).2.2.2⟩
        · -- still travelling: goal kept
          dsimp only
          refine ⟨hle, fun h => ⟨(hmode h).1, ?_⟩, fun p hp => hp, rfl⟩
          have hb := (hmode h).2
          rw [heqGoal] at hb
          exact hb

/-- The garbage agent's tick preserves the load/target invariant and the
grid's bins, whatever the hull heuristic and tie-breaking are. -/
theorem garbageTick_inv (hull : HullFn) (choose : ChooseFn) (g : Grid)
    (others : List (Nat × PointI)) (ga : GarbageAgent)
    (hcap : 0 < ga.trashCapacity)
    (hle : ga.currentTrash ≤ ga.trashCapacity)
    (hmode : ga.currentTrash = ga.trashCapacity →
      ga.cellTypes = [Cell.BIN] ∧ goalIsBin g ga.goal = true) :
    (garbageTick hull choose g others ga).2.currentTrash ≤
      (garbageTick hull choose g others ga).2.trashCapacity ∧
    ((garbageTick hull choose g others ga).2.currentTrash =
        (garbageTick hull choose g others ga).2.trashCapacity →
      (garbageTick hull choose g others ga).2.cellTypes = [Cell.BIN] ∧
      goalIsBin (garbageTick hull choose g others ga).1
        (garbageTick hull choose g others ga).2.goal = true) ∧
    (∀ p, cellAt g p = some Cell.BIN →
      cellAt (garbageTick hull choose g others ga).1 p = some Cell.BIN) ∧
    (garbageTick hull choose g others ga).2.trashCapacity =
      ga.trashCapacity := by
  have hct : ga.currentTrash = ga.trashCapacity →
      (if containsCell g Cell.WETTRASH = false ∧
          containsCell g Cell.DRYTRASH = false ∧ ga.currentTrash ≠ 0
        then [Cell.BIN] else ga.cellTypes) = [Cell.BIN] := by
    intro h
    split
    · rfl
    · exact (hmode h).1
  have hgoal1 : ∀ ct2 : List Cell, ga.currentTrash = ga.trashCapacity →
      ct2 = [Cell.BIN] →
      goalIsBin g
        (match ga.goal with
         | some p => some p
         | none => (findBestCellGarbage hull g ct2 ga.x ga.y).map toPointI) =
        true := by
    intro ct2 hcap2 hbin
    cases hg : ga.goal with
    | some p =>
      have hb := (hmode hcap2).2
      rw [hg] at hb
      exact hb
    | none =>
      subst hbin
      unfold findBestCellGarbage
      rw [if_pos (by simp)]
      cases hf : findNearestCell g ga.x.toNat ga.y.toNat [Cell.BIN] with
      | none => rfl
      | some q =>
        have hq := matchesTypes_bin (List.find?_some hf)
        simp [goalIsBin, cellAt_toPointI, hq]
  simp only [garbageTick]
  exact garbageStep_inv choose g others _ hcap hle
    (fun h => ⟨hct h, hgoal1 _ h (hct h)⟩)

/-- One decentralized tick preserves the garbage invariant, for every
hull heuristic and every tie-breaking choice. -/
theorem sepTick_inv (hull : HullFn) (choose : ChooseFn) (s : SepState)
    (hcap : 0 < s.garbage.trashCapacity) (hinv : GarbageInv s) :
    GarbageInv (sepTick hull choose s) := by
  obtain ⟨hle, hmode⟩ := hinv
  obtain ⟨g1, g2, g3, g4⟩ := garbageTick_inv hull choose s.grid
    [(plainPriority s.vacuum, (s.vacuum.x, s.vacuum.y)),
     (plainPriority s.mop, (s.mop.x, s.mop.y))] s.garbage hcap hle hmode
  unfold sepTick GarbageInv
  dsimp only
  refine ⟨g1, fun h => ⟨(g2 h).1, ?_⟩⟩
  have hb := (g2 h).2
  cases hg : (garbageTick hull choose s.grid
      [(plainPriority s.vacuum, (s.vacuum.x, s.vacuum.y)),
       (plainPriority s.mop, (s.mop.x, s.mop.y))] s.garbage).2.goal with
  | none => simp [goalIsBin]
  | some p =>
    rw [hg] at hb
    simp only [goalIsBin, decide_eq_true_eq] at hb ⊢
    exact plainTick_preserves_bin hull choose _ _ _ _ p
      (plainTick_preserves_bin hull choose _ _ _ _ p hb)

/-- `tick_agent(GARBAGE, ...)` counts at most one pickup: after a
dry-trash pickup the cell already reads `DUSTY`, so the wet-trash test
cannot also fire. -/
theorem tickAgentGarbage_count (g : Grid) (pos : PointI) (count : Nat)
    (actions : List Action) :
    (tickAgentGarbage g pos count actions).2.2 ≤ count + 1 := by
  unfold tickAgentGarbage
  dsimp only
  split
  · rename_i hdry
    split
    · rename_i hwet
      rw [cellAt_setCell_self Cell.DUSTY hdry] at hwet
      simp at hwet
    · exact le_refl _
  · split
    · exact le_refl _
    · omega

/-- The centralized controller's pickup counter never exceeds the
hardcoded threshold 5: in the bin branch it is only reset or kept, and in
the collection branch (entered only below 5) it grows by at most one. -/
theorem tickAStar_count_le (s s' : AStarState) (h : tickAStar s = some s')
    (hc : s.pickupCount ≤ 5) : s'.pickupCount ≤ 5 := by
  unfold tickAStar at h
  simp only [Option.bind_eq_some] at h
  obtain ⟨vGoal, hvg, mGoal, hmg, dGoal, hdg, wGoal, hwg,
    aDry, had, aWet, haw, aVac, hav, aMop, ham, h⟩ := h
  split at h
  · simp only [Option.bind_eq_some] at h
    obtain ⟨binGoal, hbg, aBin, hab, h⟩ := h
    split at h
    · split at h
      · obtain rfl := Option.some.inj h
        dsimp only
        split <;> omega
      · obtain rfl := Option.some.inj h
        exact hc
    · split at h <;>
      · obtain rfl := Option.some.inj h
        first
          | exact Nat.zero_le 5
          | exact hc
  · rename_i hlt
    obtain rfl := Option.some.inj h
    have hglt : s.pickupCount ≤ 4 := by omega
    have hgp : ∀ acts, (garbagePhase s acts).pickupCount ≤ 5 := by
      intro acts
      have := tickAgentGarbage_count s.grid s.gpos s.pickupCount acts
      simp only [garbagePhase]
      omega
    show (vmPhase _ _ _).pickupCount ≤ 5
    split
    · exact hgp aDry
    · split
      · exact hgp aWet
      · split
        · split
          · exact hgp aDry
          · exact hgp aWet
        · exact hc

/-! ## Claim theorems -/

/-- **C1.** The claim states that on a wall-free grid the move list
returned by `a_star` has length equal to the Manhattan distance between
start and goal.  The code violates this: its path reconstruction stores
actions as `came_from` values and treats the stored value as the next
node, so the walk stops after one step and at most one action is ever
returned.  On the wall-free 3×1 grid with start `(0,0)` and goal `(2,0)`
the Manhattan distance is `2`, both cells are in bounds and the goal is
reachable, yet `a_star` returns the single-action list `[MOVE_RIGHT]`. -/
theorem C1_astar_path_length_eval :
    aStar gridCol3 (0, 0) (2, 0) (astarFuel gridCol3) =
      some [Action.MOVE_RIGHT] ∧
    manhattanI (0, 0) (2, 0) = 2 := by decide

/-- **C3.** The claim states that after every tick of either controller no
two agents occupy the same cell.  The centralized controller
(`AStarController.tick`) moves each agent toward its own goal with no
collision check at all, and the driver's own overlap test
(`src/sim/app.py` prints `ERROR: AGENTS OVERLAPPING`) can fire: from
`collisionInit` (all three agents on distinct cells) one tick moves the
vacuum onto the dusty cell `(1,0)` where the idle mop already stands. -/
theorem C3_agents_overlap_after_tick :
    agentsOverlap collisionInit = false ∧
    (tickAStar collisionInit).map (fun s => (s.vpos, s.mpos)) =
      some ((1, 0), (1, 0)) ∧
    (tickAStar collisionInit).map agentsOverlap = some true := by decide

/-- **C5.** Each tick of the centralized controller moves every agent by
at most one unit step: every `a_star` result has at most one action (the
reconstruction returns at most the final action), the bin trip pops a
single action, and `tick_agent` applies the whole (≤ 1 element) list. -/
theorem C5_astar_tick_moves_at_most_one_step
    (s s' : AStarState) (h : tickAStar s = some s') :
    manhattanI s'.gpos s.gpos ≤ 1 ∧
    manhattanI s'.vpos s.vpos ≤ 1 ∧
    manhattanI s'.mpos s.mpos ≤ 1 := by
  unfold tickAStar at h
  simp only [Option.bind_eq_some] at h
  obtain ⟨vGoal, hvg, mGoal, hmg, dGoal, hdg, wGoal, hwg,
    aDry, had, aWet, haw, aVac, hav, aMop, ham, h⟩ := h
  have hvac := aStar_length_le_one hav
  have hmop := aStar_length_le_one ham
  have hdry := aStar_length_le_one had
  have hwet := aStar_length_le_one haw
  have hg1 : ∀ acts : List Action, acts.length ≤ 1 →
      manhattanI (garbagePhase s acts).gpos s.gpos ≤ 1 := by
    intro acts hlen
    rw [garbagePhase_gpos]
    exact tickAgentPos_dist_le_one hlen
  split at h
  · -- bin branch (5 ≤ pickup count)
    simp only [Option.bind_eq_some] at h
    obtain ⟨binGoal, hbg, aBin, hab, h⟩ := h
    split at h
    · -- stored list `a :: rest`
      rename_i a rest _
      split at h
      · -- valid move: early return, vacuum and mop untouched
        obtain rfl := Option.some.inj h
        exact ⟨applyAction_dist_le_one s.grid s.gpos a,
          by simp [manhattanI_self], by simp [manhattanI_self]⟩
      · obtain rfl := Option.some.inj h
        refine ⟨by rw [vmPhase_gpos]; simp [manhattanI_self], ?_, ?_⟩
        · rw [vmPhase_vpos]
          exact tickAgentPos_dist_le_one hvac
        · rw [vmPhase_mpos]
          exact tickAgentPos_dist_le_one hmop
    · -- stored list empty
      split at h <;>
      · obtain rfl := Option.some.inj h
        refine ⟨by rw [vmPhase_gpos]; simp [manhattanI_self], ?_, ?_⟩
        · rw [vmPhase_vpos]
          exact tickAgentPos_dist_le_one hvac
        · rw [vmPhase_mpos]
          exact tickAgentPos_dist_le_one hmop
  · -- collection branch (< 5): garbage moves by `tick_agent` on one of
    -- the dry/wet (≤ 1 element) plans
    obtain rfl := Option.some.inj h
    refine ⟨?_, ?_, ?_⟩
    · rw [vmPhase_gpos]
      split
      · exact hg1 aDry hdry
      · split
        · exact hg1 aWet hwet
        · split
          · split
            · exact hg1 aDry hdry
            · exact hg1 aWet hwet
          · simp [manhattanI_self]
    · rw [vmPhase_vpos]
      have hv : ∀ s0 : AStarState, s0.vpos = s.vpos →
          manhattanI (tickAgentPos s0.grid s0.vpos aVac) s.vpos ≤ 1 := by
        intro s0 h0
        rw [h0]
        exact tickAgentPos_dist_le_one hvac
      apply hv
      repeat' split
      all_goals rfl
    · rw [vmPhase_mpos]
      have hm : ∀ s0 : AStarState, s0.mpos = s.mpos →
          manhattanI (tickAgentPos (tickAgentVacuum s0.grid s0.vpos aVac).1
            s0.mpos aMop) s.mpos ≤ 1 := by
        intro s0 h0
        rw [h0]
        exact tickAgentPos_dist_le_one hmop
      apply hm
      repeat' split
      all_goals rfl

/-- Witness for C5 at a concrete input: one tick from `collisionInit`
produces `collisionPost`, and every agent moved at most one step. -/
theorem C5_witness :
    tickAStar collisionInit = some collisionPost ∧
    manhattanI collisionPost.gpos collisionInit.gpos ≤ 1 ∧
    manhattanI collisionPost.vpos collisionInit.vpos ≤ 1 ∧
    manhattanI collisionPost.mpos collisionInit.mpos ≤ 1 :=
  ⟨by decide,
   C5_astar_tick_moves_at_most_one_step collisionInit collisionPost (by decide)⟩

/-- **C7.** For every grid and in-bounds start: `a_star` returns the empty
list when start equals goal (the first pop is the goal and `came_from` is
empty); when the goal is unreachable it returns the empty list without
raising (the queue drains); and it always terminates within fuel
`2·rows·cols`, because each node enters the visited set (`g_score`) at
most once. -/
theorem C7_astar_empty_unreachable_terminates (g : Grid) (start goal : PointI)
    (hs : inBoundsI g start = true) :
    aStar g start start (astarFuel g) = some [] ∧
    (¬ Reach g start goal → aStar g start goal (astarFuel g) = some []) ∧
    (aStar g start goal (astarFuel g)).isSome := by
  have hpos : 0 < numRows g * numCols g := by
    simp only [inBoundsI, Bool.and_eq_true, decide_eq_true_eq] at hs
    have h1 : (0 : Int) < numRows g := lt_of_le_of_lt hs.1.1.1 hs.1.1.2
    have h2 : (0 : Int) < numCols g := lt_of_le_of_lt hs.1.2 hs.2
    have h1' : 0 < numRows g := by exact_mod_cast h1
    have h2' : 0 < numCols g := by exact_mod_cast h2
    exact Nat.mul_pos h1' h2'
  refine ⟨?_, ?_, aStar_isSome g start goal hs⟩
  · obtain ⟨k, hk⟩ : ∃ k, astarFuel g = k + 1 := by
      refine ⟨astarFuel g - 1, ?_⟩
      unfold astarFuel
      omega
    rw [hk]
    exact aStar_self g start k
  · intro hun
    obtain ⟨l, hl⟩ := Option.isSome_iff_exists.mp (aStar_isSome g start goal hs)
    have hnil := astarLoop_eq_nil_of_unreachable g start goal hun
      (astarFuel g) [(0, start)] [(start, 0)] []
      (by
        intro e he
        simp only [List.mem_singleton] at he
        rw [he]
        exact Relation.ReflTransGen.refl) l hl
    rw [hl, hnil]

/-- Witness for C7 on the walled 1×3 grid: `(0,2)` is cut off from
`(0,0)` by the wall at `(0,1)`, the search terminates and returns the
empty list, and the start-equals-goal call returns the empty list. -/
theorem C7_witness :
    aStar gridWalled (0, 0) (0, 0) (astarFuel gridWalled) = some [] ∧
    aStar gridWalled (0, 0) (0, 2) (astarFuel gridWalled) = some [] ∧
    (aStar gridWalled (0, 0) (0, 2) (astarFuel gridWalled)).isSome := by
  have hreachOnly : ∀ p, Reach gridWalled (0, 0) p → p = (0, 0) := by
    intro p h
    induction h with
    | refl => rfl
    | tail h1 h2 ih =>
      obtain ⟨⟨a, ha⟩, hv⟩ := h2
      rw [ih] at ha
      rw [ha]
      cases a <;> decide
  have hun : ¬ Reach gridWalled (0, 0) (0, 2) := by
    intro hr
    have := hreachOnly _ hr
    simp at this
  have h := C7_astar_empty_unreachable_terminates gridWalled (0, 0) (0, 2)
    (by decide)
  exact ⟨h.1, h.2.1 hun, h.2.2⟩

/-- **C10.** When no cell of the requested type is reachable from an
in-bounds start, `find_closest_goal` drains its queue and returns the
start position itself (not a sentinel and without raising), and the
subsequent `a_star(start, start)` call returns the empty action list, so
`tick_agent` leaves the agent's position unchanged for that tick. -/
theorem C10_find_closest_goal_fallback (g : Grid) (start : PointI)
    (goalType : Cell) (hs : inBoundsI g start = true)
    (hun : ∀ p, Reach g start p → cellAt g p ≠ some goalType) :
    findClosestGoal g start goalType (fcgFuel g) = some start ∧
    aStar g start start (astarFuel g) = some [] ∧
    tickAgentPos g start [] = start := by
  have hpos : 0 < numRows g * numCols g := by
    simp only [inBoundsI, Bool.and_eq_true, decide_eq_true_eq] at hs
    have h1 : (0 : Int) < numRows g := lt_of_le_of_lt hs.1.1.1 hs.1.1.2
    have h2 : (0 : Int) < numCols g := lt_of_le_of_lt hs.1.2 hs.2
    have h1' : 0 < numRows g := by exact_mod_cast h1
    have h2' : 0 < numCols g := by exact_mod_cast h2
    exact Nat.mul_pos h1' h2'
  refine ⟨?_, ?_, rfl⟩
  · obtain ⟨r, hr⟩ :=
      Option.isSome_iff_exists.mp (findClosestGoal_isSome g start goalType)
    have := fcgLoop_eq_start_of_unreachable g goalType start hun
      (fcgFuel g) [(0, start)] []
      (by
        intro e he
        simp only [List.mem_singleton] at he
        rw [he]
        exact Relation.ReflTransGen.refl) r hr
    rw [hr, this]
  · obtain ⟨k, hk⟩ : ∃ k, astarFuel g = k + 1 := by
      refine ⟨astarFuel g - 1, ?_⟩
      unfold astarFuel
      omega
    rw [hk]
    exact aStar_self g start k

/-- Witness for C10 on `gridCol4`, which holds no `WETTRASH` at all: the
ring of searches from `(3,0)` finds nothing and falls back to `(3,0)`. -/
theorem C10_witness :
    findClosestGoal gridCol4 (3, 0) Cell.WETTRASH (fcgFuel gridCol4) =
      some (3, 0) ∧
    aStar gridCol4 (3, 0) (3, 0) (astarFuel gridCol4) = some [] ∧
    tickAgentPos gridCol4 (3, 0) [] = (3, 0) :=
  C10_find_closest_goal_fallback gridCol4 (3, 0) Cell.WETTRASH (by decide)
    (fun p _ => cellAt_ne_of_not_contains (by decide) p)

/-- **C8.** For an in-bounds centre `(x, y)`, `iter_closest` enumerates
every in-bounds cell exactly once, in non-decreasing Manhattan distance
from the centre, so `find_nearest_cell` returns a matching cell at
minimum Manhattan distance when one exists and `None` exactly when no
in-bounds cell matches. -/
theorem C8_ring_search_enumerates_in_order (g : Grid) (x y : Nat)
    (cellTypes : List Cell) (hx : x < numRows g) (hy : y < numCols g) :
    (iterClosest x y g).Nodup ∧
    (∀ p : PointN, p ∈ iterClosest x y g ↔
       p.1 < numRows g ∧ p.2 < numCols g) ∧
    (iterClosest x y g).Pairwise
      (fun p q => manhattanN p (x, y) ≤ manhattanN q (x, y)) ∧
    (∀ p, findNearestCell g x y cellTypes = some p →
       matchesTypes g cellTypes p = true ∧
       ∀ q : PointN, q.1 < numRows g → q.2 < numCols g →
         matchesTypes g cellTypes q = true →
         manhattanN p (x, y) ≤ manhattanN q (x, y)) ∧
    (findNearestCell g x y cellTypes = none ↔
       ∀ q : PointN, q.1 < numRows g → q.2 < numCols g →
         matchesTypes g cellTypes q = false) := by
  refine ⟨iterClosest_nodup g x y hx hy, iterClosest_mem g x y hx hy,
    iterClosest_pairwise g x y hx hy, ?_, ?_⟩
  · intro p hp
    refine ⟨List.find?_some hp, ?_⟩
    intro q hq1 hq2 hqm
    unfold findNearestCell at hp
    rw [List.find?_eq_some] at hp
    obtain ⟨hpm, as, bs, hsplit, has⟩ := hp
    have hqmem : q ∈ iterClosest x y g :=
      (iterClosest_mem g x y hx hy q).mpr ⟨hq1, hq2⟩
    rw [hsplit] at hqmem
    rw [List.mem_append, List.mem_cons] at hqmem
    rcases hqmem with hqa | rfl | hqb
    · exact absurd hqm (by simpa using has q hqa)
    · exact le_refl _
    · have hpair := iterClosest_pairwise g x y hx hy
      rw [hsplit, List.pairwise_append] at hpair
      have := (List.pairwise_cons.mp hpair.2.1).1
      exact this q hqb
  · unfold findNearestCell
    rw [List.find?_eq_none]
    constructor
    · intro h q hq1 hq2
      have hqmem : q ∈ iterClosest x y g :=
        (iterClosest_mem g x y hx hy q).mpr ⟨hq1, hq2⟩
      have := h q hqmem
      simpa using this
    · intro h q hqmem
      have := (iterClosest_mem g x y hx hy q).mp hqmem
      rw [h q this.1 this.2]
      simp

/-- Witness for C8: on `gridCol4` (one dusty cell at `(1,0)`) searching
from `(3,0)`, the nearest `DUSTY` cell is found at distance 2, and a
search for an absent type yields `None`. -/
theorem C8_witness :
    (iterClosest 3 0 gridCol4).Nodup ∧
    findNearestCell gridCol4 3 0 [Cell.DUSTY] = some (1, 0) ∧
    findNearestCell gridCol4 3 0 [Cell.BIN] = none ∧
    matchesTypes gridCol4 [Cell.DUSTY] (1, 0) = true := by
  have h := C8_ring_search_enumerates_in_order gridCol4 3 0 [Cell.DUSTY]
    (by decide) (by decide)
  exact ⟨h.1, by decide, by decide, by decide⟩

set_option maxRecDepth 1000000 in
/-- **C4** (counterexample). On the bin-free column `sepColumnGrid`, ten
ticks of the decentralized controller fill the garbage agent to capacity
(`current_trash = trash_capacity = 10`); at the next tick the load still
equals the capacity and is nonzero, yet the agent's goal is `None`
(`find_best_cell` finds no `BIN` cell anywhere), so the goal is not a bin
cell at that subsequent tick, refuting the claim's second conjunct. -/
theorem C4_counterexample :
    (c4Run 10).garbage.currentTrash = (c4Run 10).garbage.trashCapacity ∧
    (c4Run 11).garbage.currentTrash = (c4Run 11).garbage.trashCapacity ∧
    (c4Run 11).garbage.currentTrash ≠ 0 ∧
    (c4Run 11).garbage.goal = none := by
  decide

/-- **C4** (amended). What does hold: (i) every decentralized tick
preserves the garbage invariant — the load never exceeds the capacity,
and at full load the agent requests only `BIN` cells and any goal it
holds is a bin cell — for every hull selection and every tie-breaker;
(ii) the centralized controller's pickup counter never exceeds its
hardcoded threshold 5.  The original claim's stronger clause, that a full
agent holds a bin goal at every subsequent tick until it unloads, fails
on a bin-free grid, where the goal stays `None` with the load stuck at
capacity. -/
theorem C4_capacity_invariant (hull : HullFn) (choose : ChooseFn)
    (s : SepState) (hcap : 0 < s.garbage.trashCapacity)
    (hinv : GarbageInv s) :
    GarbageInv (sepTick hull choose s) ∧
    ∀ a b : AStarState, tickAStar a = some b →
      a.pickupCount ≤ 5 → b.pickupCount ≤ 5 :=
  ⟨sepTick_inv hull choose s hcap hinv,
   fun a b h hc => tickAStar_count_le a b h hc⟩

/-- Witness for C4: the garbage invariant holds after one tick from the
concrete capacity-run state. -/
theorem C4_witness :
    0 < sepCapacityInit.garbage.trashCapacity ∧
    GarbageInv (sepTick collinearHullArgmin chooseHead sepCapacityInit) :=
  ⟨by decide,
   (C4_capacity_invariant collinearHullArgmin chooseHead sepCapacityInit
      (by decide) ⟨by decide, fun h => absurd h (by decide)⟩).1⟩

/-- **C2** (counterexample). In `c2State` the 1×1 grid is a single
`DRYTRASH` cell while no agent holds a goal and the garbage load is
zero: `SeparateAgents.finished` returns `True` although a `DRYTRASH`
cell remains, because it never inspects the grid — refuting the claim's
"if" direction. -/
theorem C2_counterexample :
    finishedSep c2State = true ∧ gridHazardFree c2State.grid = false := by
  decide

/-- **C2** (amended). `SeparateAgents.finished` is true exactly when no
agent holds a pending goal and the garbage load is zero; the grid is not
inspected, so hazard cells may remain.  The driver's `finished_sim`
restores the grid condition: short of the watchdog, it is true exactly
when the controller reports finished and no hazard cell remains. -/
theorem C2_finished_characterization (s : SepState) (g : Grid)
    (agentsFinished : Bool) (ticks rows cols : Nat)
    (hwd : probablyLooping ticks rows cols = false) :
    (finishedSep s = true ↔
      s.garbage.goal = none ∧ s.vacuum.goal = none ∧ s.mop.goal = none ∧
      s.garbage.currentTrash = 0) ∧
    (finishedSim g agentsFinished ticks rows cols = true ↔
      agentsFinished = true ∧ gridHazardFree g = true) := by
  constructor
  · unfold finishedSep
    cases hg : s.garbage.goal <;> cases hv : s.vacuum.goal <;>
      cases hm : s.mop.goal <;> simp [not_lt, Nat.le_zero]
  · unfold finishedSim
    rw [hwd]
    simp

/-- Witness for C2: the characterization applied at `c2State`, its own
grid and tick 0 of a 1×1 run. -/
theorem C2_witness :
    (finishedSep c2State = true ↔
      c2State.garbage.goal = none ∧ c2State.vacuum.goal = none ∧
      c2State.mop.goal = none ∧ c2State.garbage.currentTrash = 0) ∧
    (finishedSim c2State.grid true 0 1 1 = true ↔
      true = true ∧ gridHazardFree c2State.grid = true) :=
  C2_finished_characterization c2State c2State.grid true 0 1 1 (by decide)

/-- **C6.** The clean-up semantics of both controllers: the
decentralized `Agent.clean_up` empties a `DUSTY`/`SOAKED` cell and
leaves `WALL`/`BIN` untouched; `Garbage.clean_up` bags `DRYTRASH` into
`DUSTY` and `WETTRASH` into `SOAKED` and leaves the grid unchanged on
`WALL`/`BIN`; and the centralized `tick_agent` cleans the landing cell
the same way (vacuum `DUSTY` → `EMPTY`, mop `SOAKED` → `EMPTY`, garbage
`DRYTRASH` → `DUSTY` and `WETTRASH` → `SOAKED`, `WALL`/`BIN` no-ops). -/
theorem C6_cleanup_semantics (g : Grid) (pos : PointI) (ga : GarbageAgent)
    (actions : List Action) (count : Nat) :
    (cellAt g pos = some Cell.DUSTY →
      cellAt (cleanUpBase g pos) pos = some Cell.EMPTY) ∧
    (cellAt g pos = some Cell.SOAKED →
      cellAt (cleanUpBase g pos) pos = some Cell.EMPTY) ∧
    (cellAt g pos = some Cell.WALL ∨ cellAt g pos = some Cell.BIN →
      cleanUpBase g pos = g) ∧
    (cellAt g (ga.x, ga.y) = some Cell.DRYTRASH →
      cellAt (cleanUpGarbage g ga).1 (ga.x, ga.y) = some Cell.DUSTY) ∧
    (cellAt g (ga.x, ga.y) = some Cell.WETTRASH →
      cellAt (cleanUpGarbage g ga).1 (ga.x, ga.y) = some Cell.SOAKED) ∧
    (cellAt g (ga.x, ga.y) = some Cell.WALL ∨
       cellAt g (ga.x, ga.y) = some Cell.BIN →
      (cleanUpGarbage g ga).1 = g) ∧
    (cellAt g (tickAgentPos g pos actions) = some Cell.DUSTY →
      cellAt (tickAgentVacuum g pos actions).1 (tickAgentPos g pos actions) =
        some Cell.EMPTY) ∧
    (cellAt g (tickAgentPos g pos actions) = some Cell.WALL ∨
       cellAt g (tickAgentPos g pos actions) = some Cell.BIN →
      (tickAgentVacuum g pos actions).1 = g) ∧
    (cellAt g (tickAgentPos g pos actions) = some Cell.SOAKED →
      cellAt (tickAgentMop g pos actions).1 (tickAgentPos g pos actions) =
        some Cell.EMPTY) ∧
    (cellAt g (tickAgentPos g pos actions) = some Cell.WALL ∨
       cellAt g (tickAgentPos g pos actions) = some Cell.BIN →
      (tickAgentMop g pos actions).1 = g) ∧
    (cellAt g (tickAgentPos g pos actions) = some Cell.DRYTRASH →
      cellAt (tickAgentGarbage g pos count actions).1
        (tickAgentPos g pos actions) = some Cell.DUSTY) ∧
    (cellAt g (tickAgentPos g pos actions) = some Cell.WETTRASH →
      cellAt (tickAgentGarbage g pos count actions).1
        (tickAgentPos g pos actions) = some Cell.SOAKED) ∧
    (cellAt g (tickAgentPos g pos actions) = some Cell.WALL ∨
       cellAt g (tickAgentPos g pos actions) = some Cell.BIN →
      (tickAgentGarbage g pos count actions).1 = g) := by
  refine ⟨?_, ?_, ?_, ?_, ?_, ?_, ?_, ?_, ?_, ?_, ?_, ?_, ?_⟩
  · intro h
    simp only [cleanUpBase, h]
    exact cellAt_setCell_self _ h
  · intro h
    simp only [cleanUpBase, h]
    exact cellAt_setCell_self _ h
  · intro h
    rcases h with h | h <;> simp [cleanUpBase, h]
  · intro h
    simp only [cleanUpGarbage, h]
    exact cellAt_setCell_self _ h
  · intro h
    simp only [cleanUpGarbage, h]
    exact cellAt_setCell_self _ h
  · intro h
    rcases h with h | h <;> simp [cleanUpGarbage, h]
  · intro h
    simp only [tickAgentVacuum]
    rw [if_pos h]
    exact cellAt_setCell_self _ h
  · intro h
    rcases h with h | h <;> simp [tickAgentVacuum, h]
  · intro h
    simp only [tickAgentMop]
    rw [if_pos h]
    exact cellAt_setCell_self _ h
  · intro h
    rcases h with h | h <;> simp [tickAgentMop, h]
  · intro h
    simp only [tickAgentGarbage]
    rw [if_pos h]
    dsimp only
    rw [if_neg (by rw [cellAt_setCell_self Cell.DUSTY h]; simp)]
    exact cellAt_setCell_self _ h
  · intro h
    simp [tickAgentGarbage, h]
    exact cellAt_setCell_self _ h
  · intro h
    rcases h with h | h <;> simp [tickAgentGarbage, h]

/-- Witness for C6: on concrete 1×1 grids, the vacuum clean-up empties a
dusty cell and the garbage clean-up bags a dry-trash cell into dust. -/
theorem C6_witness :
    cellAt (cleanUpBase [[Cell.DUSTY]] (0, 0)) (0, 0) = some Cell.EMPTY ∧
    cellAt (cleanUpGarbage c2State.grid c2State.garbage).1
      (c2State.garbage.x, c2State.garbage.y) = some Cell.DUSTY :=
  ⟨(C6_cleanup_semantics [[Cell.DUSTY]] (0, 0) c2State.garbage [] 0).1
      (by decide),
   (C6_cleanup_semantics c2State.grid (0, 0) c2State.garbage [] 0).2.2.2.1
      (by decide)⟩

/-- **C9.** The driver's watchdog: once the tick count exceeds
`watchdogBound rows cols = (max rows cols)^2 * 10`, `finished_sim`
reports the run finished whatever the grid and the agents say, so no run
executes more than that many ticks; and the bound is proportional to the
grid area (`rows * cols * 10` at most). -/
theorem C9_watchdog_aborts (g : Grid) (agentsFinished : Bool)
    (ticks rows cols : Nat) (h : watchdogBound rows cols < ticks) :
    finishedSim g agentsFinished ticks rows cols = true ∧
    rows * cols * 10 ≤ watchdogBound rows cols := by
  constructor
  · have hpl : probablyLooping ticks rows cols = true := by
      unfold probablyLooping
      unfold watchdogBound at h
      simpa using h
    unfold finishedSim
    rw [hpl, Bool.or_true]
  · unfold watchdogBound
    have h1 : rows * cols ≤ max rows cols * max rows cols :=
      Nat.mul_le_mul (le_max_left rows cols) (le_max_right rows cols)
    calc rows * cols * 10 ≤ max rows cols * max rows cols * 10 :=
          Nat.mul_le_mul_right 10 h1
      _ = (max rows cols) ^ 2 * 10 := by rw [pow_two]

/-- Witness for C9: on a still-dirty 1×1 grid with unfinished agents, the
watchdog fires at tick 11 (the bound is 10). -/
theorem C9_witness :
    watchdogBound 1 1 < 11 ∧
    finishedSim [[Cell.DRYTRASH]] false 11 1 1 = true ∧
    1 * 1 * 10 ≤ watchdogBound 1 1 :=
  ⟨by decide, C9_watchdog_aborts [[Cell.DRYTRASH]] false 11 1 1 (by decide)⟩

end TrashSim
